import Mathlib

/-!
# K-Means clustering engine: shallow embedding and verified properties

Source: `src/source/functions.cpp`, `src/source/kmeans.h`, `src/source/structures.h`.

Modelling conventions
* `double` coordinates are exact rationals (`ℚ`).
* `std::vector` is `List`; `operator[]` is an `Option`-valued lookup, `none` standing for
  an out-of-bounds access (undefined behaviour in the source).
* `int` fields (`k`, `dimensions`, `cluster`) are `Int`; the conversion of an `int` to
  `size_t` is written out as reduction modulo `2^64`, and of a `size_t` to `int` as
  two's-complement reduction to 32 bits. The per-cluster `int` counters of
  `updateCentroids` are not reduced: a store holds fewer than `2^31` records.
* `rand()` is a stream `rand : Nat → Nat`, `rand i` being the value of the `i`-th call;
  `exit(1)` is the result `Except.error Fault.exit1`.
* `for (int i = lo; i < hi; i++)` loops are `forLoop lo hi`, a monadic left fold over
  the index list `lo, lo+1, ..., hi-1`.
* The input file of `loadData` is the list of its lines, a line being the list of its
  comma-separated numeric fields (the text-to-number conversion `stod` is not modelled);
  a file that cannot be opened is `none`.
-/

namespace KMeansModel

/-! ## Data model (`structures.h`, `kmeans.h`) -/

/-- A data point: `std::vector<double> coords; int cluster = -1;`. -/
structure Point where
  coords : List ℚ
  cluster : Int := -1
deriving DecidableEq

/-- A centroid: `std::vector<double> coords;`. -/
structure Centroid where
  coords : List ℚ
deriving DecidableEq

/-- The private fields of class `KMeans`. -/
structure KMeans where
  k : Int
  dimensions : Int := 0
  points : List Point := []
  centroids : List Centroid := []
deriving DecidableEq

/-- Ways in which a call can end abnormally. -/
inductive Fault where
  | exit1
  | undefinedBehaviour
deriving DecidableEq

/-! ## Machine-level helpers -/

/-- Conversion of an `int` to `size_t` (64 bit). -/
def toSizeT (i : Int) : Nat := (i % (2 : Int) ^ 64).toNat

/-- Conversion of a `size_t` value to `int` (32 bit, two's complement). -/
def toInt32 (n : Nat) : Int := ((n : Int) + (2 : Int) ^ 31) % (2 : Int) ^ 32 - (2 : Int) ^ 31

/-- The largest value `rand()` may return. -/
def RAND_MAX : Nat := 2147483647

/-- Read `v[i]` for an `int` index `i`: defined only when `0 ≤ i < v.size()`. -/
def idx {α : Type} (v : List α) (i : Int) : Option α :=
  if i < 0 then none else v[i.toNat]?

/-- Write `v[i] = x` for a `size_t` index: defined only when `i < v.size()`. -/
def setAt {α : Type} (v : List α) (i : Nat) (x : α) : Option (List α) :=
  if i < v.length then some (v.set i x) else none

/-- Loop `for (i = lo; i < hi; i++) acc = body acc i`, stopping at the first fault. -/
def forLoop {β : Type} (lo hi : Nat) (body : β → Nat → Option β) (init : β) : Option β :=
  (List.range' lo (hi - lo)).foldlM body init

/-- Resize `std::vector::resize(n)`: truncate, or pad with default-constructed centroids. -/
def resize (v : List Centroid) (n : Nat) : List Centroid :=
  v.take n ++ List.replicate (n - v.length) ⟨[]⟩

/-! ## `KMeans::initCentroids` (functions.cpp 70-83) -/

/-- Body of the seeding loop: `index = rand() % points.size();
centroids[i].coords = points[index].coords;`. The `i`-th call of `rand()` returns `rand i`. -/
def initStep (rand : Nat → Nat) (points : List Point) (cs : List Centroid) (i : Nat) :
    Option (List Centroid) :=
  if points.length = 0 then none
  else do
    let index : Int := toInt32 (rand i % points.length)
    let p ← idx points index
    let _ ← cs[i]?
    setAt cs i ⟨p.coords⟩

/-- Embedding of `KMeans::initCentroids`. -/
def initCentroids (rand : Nat → Nat) (s : KMeans) : Except Fault KMeans :=
  if s.points.length < toSizeT s.k then Except.error Fault.exit1
  else
    match forLoop 0 s.k.toNat (initStep rand s.points) (resize s.centroids (toSizeT s.k)) with
    | none => Except.error Fault.undefinedBehaviour
    | some cs => Except.ok { s with centroids := cs }

/-! ## `KMeans::KMeans` and `KMeans::loadData` (functions.cpp 18-65) -/

/-- Constructor `KMeans::KMeans(int k)`: `dimensions = 0`, no points, no centroids. -/
def construct (k : Int) : KMeans :=
  { k := k, dimensions := 0, points := [], centroids := [] }

/-- The loop `for (int i = 0; i < 4; i++) { if (!getline(ss, token, ',')) break;
p.coords.push_back(stod(token)); }` with `n` iterations left: `fields` are the numeric
fields still in the stream, `coords` the coordinates read so far. -/
def readFields : Nat → List ℚ → List ℚ → List ℚ
  | 0, _, coords => coords
  | _ + 1, [], coords => coords
  | n + 1, token :: fields, coords => readFields n fields (coords ++ [token])

/-- Body of the loop `while (getline(file, line))` on the pair of the engine state and the
flag `firstLine`. A line is the list of its comma-separated numeric fields; the empty
line has none, and the content of the header line is never read. -/
def loadLine (st : KMeans × Bool) (line : List ℚ) : KMeans × Bool :=
  if line.isEmpty then st
  else if st.2 then (st.1, false)
  else
    let p : Point := { coords := readFields 4 line [], cluster := -1 }
    let s1 : KMeans :=
      if st.1.points.isEmpty then { st.1 with dimensions := toInt32 p.coords.length }
      else st.1
    if p.coords.length = toSizeT s1.dimensions then
      ({ s1 with points := s1.points ++ [p] }, false)
    else (s1, false)

/-- The reading loop of `loadData` over all lines of the file. -/
def loadLines (lines : List (List ℚ)) (s : KMeans) : KMeans :=
  (lines.foldl loadLine (s, true)).1

/-- Embedding of `KMeans::loadData`: `file` is `none` when the file cannot be opened,
otherwise its lines; after reading, `initCentroids` is called. -/
def loadData (rand : Nat → Nat) (file : Option (List (List ℚ))) (s : KMeans) :
    Except Fault KMeans :=
  match file with
  | none => Except.error Fault.exit1
  | some lines => initCentroids rand (loadLines lines s)

/-! ## `KMeans::distance` (functions.cpp 88-98) -/

/-- Embedding of `KMeans::distance`: squared Euclidean distance, reading `c.coords[i]` for
every index of `p.coords`. -/
def distance (p : Point) (c : Centroid) : Option ℚ :=
  forLoop 0 p.coords.length (fun sum i => do
    let a ← p.coords[i]?
    let b ← c.coords[i]?
    let diff := a - b
    pure (sum + diff * diff)) 0

/-! ## `KMeans::assignClusters` (functions.cpp 103-120) -/

/-- Body of the scan `for (int i = 1; i < k; i++)`, on the pair `(bestDist, bestCluster)`. -/
def assignStep (centroids : List Centroid) (p : Point) (best : ℚ × Int) (i : Nat) :
    Option (ℚ × Int) := do
  let ci ← centroids[i]?
  let d ← distance p ci
  if d < best.1 then pure (d, (i : Int)) else pure best

/-- Body of the loop over points in `assignClusters`. -/
def assignPoint (k : Int) (centroids : List Centroid) (p : Point) : Option Point := do
  let c0 ← centroids[0]?
  let bestDist ← distance p c0
  let best ← forLoop 1 k.toNat (assignStep centroids p) (bestDist, 0)
  pure { p with cluster := best.2 }

/-- The loop `for (auto& p : points)` of `assignClusters`. -/
def assignLoop (k : Int) (centroids : List Centroid) : List Point → Option (List Point)
  | [] => some []
  | p :: ps => do
    let p' ← assignPoint k centroids p
    let ps' ← assignLoop k centroids ps
    pure (p' :: ps')

/-- Embedding of `KMeans::assignClusters`. -/
def assignClusters (s : KMeans) : Option KMeans := do
  let pts ← assignLoop s.k s.centroids s.points
  pure { s with points := pts }

/-! ## `KMeans::updateCentroids` (functions.cpp 125-146) -/

/-- Body of `for (j = 0; j < dimensions; j++) newCoords[c][j] += p.coords[j];`. -/
def addCoord (p : Point) (c : Int) (newCoords : List (List ℚ)) (j : Nat) :
    Option (List (List ℚ)) := do
  let row ← idx newCoords c
  let x ← row[j]?
  let y ← p.coords[j]?
  let row' ← setAt row j (x + y)
  setAt newCoords c.toNat row'

/-- Body of the accumulation loop over points: `counts[c]++` and the coordinate sums. -/
def accumulate (dimensions : Int) (acc : List Int × List (List ℚ)) (p : Point) :
    Option (List Int × List (List ℚ)) := do
  let c := p.cluster
  let n ← idx acc.1 c
  let counts ← setAt acc.1 c.toNat (n + 1)
  let newCoords ← forLoop 0 dimensions.toNat (addCoord p c) acc.2
  pure (counts, newCoords)

/-- Body of `for (j = 0; j < dimensions; j++) centroids[i].coords[j] = newCoords[i][j] / counts[i];`. -/
def writeCoord (newCoords : List (List ℚ)) (count : Int) (i : Nat) (cs : List Centroid)
    (j : Nat) : Option (List Centroid) := do
  let row ← newCoords[i]?
  let x ← row[j]?
  let ci ← cs[i]?
  let coords ← setAt ci.coords j (x / (count : ℚ))
  setAt cs i ⟨coords⟩

/-- Body of the loop `for (int i = 0; i < k; i++)` that installs the means. -/
def writeCentroid (dimensions : Int) (counts : List Int) (newCoords : List (List ℚ))
    (cs : List Centroid) (i : Nat) : Option (List Centroid) := do
  let n ← counts[i]?
  if n = 0 then pure cs
  else forLoop 0 dimensions.toNat (writeCoord newCoords n i) cs

/-- Embedding of `KMeans::updateCentroids`. Constructing a vector with a negative `int`
size raises `std::length_error`, modelled as a fault. -/
def updateCentroids (s : KMeans) : Option KMeans :=
  if s.k < 0 ∨ s.dimensions < 0 then none
  else do
    let counts : List Int := List.replicate s.k.toNat 0
    let newCoords : List (List ℚ) := List.replicate s.k.toNat (List.replicate s.dimensions.toNat 0)
    let acc ← s.points.foldlM (accumulate s.dimensions) (counts, newCoords)
    let cs ← forLoop 0 s.k.toNat (writeCentroid s.dimensions acc.1 acc.2) s.centroids
    pure { s with centroids := cs }

/-! ## `KMeans::hasConverged` (functions.cpp 151-167) -/

/-- Inner loop of `hasConverged`: squared displacement of centroid `i` over the first
`dimensions` coordinates. -/
def displacement (dimensions : Int) (centroids oldCentroids : List Centroid) (i : Nat) :
    Option ℚ :=
  forLoop 0 dimensions.toNat (fun dist j => do
    let ci ← centroids[i]?
    let a ← ci.coords[j]?
    let oi ← oldCentroids[i]?
    let b ← oi.coords[j]?
    let diff := a - b
    pure (dist + diff * diff)) 0

/-- Outer loop of `hasConverged` over the remaining centroid indices, with the early
`return false`. -/
def hasConvergedLoop (dimensions : Int) (centroids oldCentroids : List Centroid) (tol : ℚ) :
    List Nat → Option Bool
  | [] => some true
  | i :: rest => do
    let dist ← displacement dimensions centroids oldCentroids i
    if dist > tol then pure false
    else hasConvergedLoop dimensions centroids oldCentroids tol rest

/-- Embedding of `KMeans::hasConverged`. -/
def hasConverged (s : KMeans) (oldCentroids : List Centroid) (tol : ℚ) : Option Bool :=
  hasConvergedLoop s.dimensions s.centroids oldCentroids tol (List.range' 0 s.k.toNat)

/-! ## `KMeans::run` (functions.cpp 172-189) -/

/-- Constant `maxIter` of `run`. -/
def maxIter : Nat := 100

/-- Constant `tol` of `run`. -/
def tol : ℚ := 1 / 10000

/-- The loop of `run` with `fuel` iterations left and `iter` iterations done; the result
carries the number of iterations performed. -/
def runLoop : Nat → Nat → KMeans → Option (KMeans × Nat)
  | 0, iter, s => some (s, iter)
  | fuel + 1, iter, s => do
    let oldCentroids := s.centroids
    let s1 ← assignClusters s
    let s2 ← updateCentroids s1
    let conv ← hasConverged s2 oldCentroids tol
    if conv then pure (s2, iter + 1)
    else runLoop fuel (iter + 1) s2

/-- Embedding of `KMeans::run`, returning the final state and the iteration count. -/
def run (s : KMeans) : Option (KMeans × Nat) := runLoop maxIter 0 s

/-! ## Specification-side definitions -/

/-- Sum over the first `n` coordinates of the squared differences of `a` and `b`. -/
def sqDiffSum (a b : List ℚ) (n : Nat) : ℚ :=
  ((List.range n).map (fun i => ((a[i]?).getD 0 - (b[i]?).getD 0) ^ 2)).sum

/-- Shape invariant of the engine state: the centroid set has exactly `k` centroids, and
every record and every centroid has exactly `dimensions` coordinates. -/
structure WF (s : KMeans) : Prop where
  dim_nonneg : 0 ≤ s.dimensions
  cent_len : (s.centroids.length : Int) = s.k
  point_dim : ∀ p ∈ s.points, (p.coords.length : Int) = s.dimensions
  cent_dim : ∀ c ∈ s.centroids, (c.coords.length : Int) = s.dimensions

/-- Every record label is a valid cluster index. -/
def LabelsInRange (s : KMeans) : Prop := ∀ p ∈ s.points, 0 ≤ p.cluster ∧ p.cluster < s.k

/-- What the scan of `assignClusters` establishes for one record: `c` is the first index
among `0, ..., m-1` that minimises `D`. -/
def FirstArgmin (D : Nat → ℚ) (m c : Nat) : Prop :=
  c < m ∧ (∀ j, j < m → D c ≤ D j) ∧ (∀ j, j < c → D c < D j)

/-- The records and centroids of `s` all have `d` coordinates. -/
def SameDim (s : KMeans) (d : Nat) : Prop :=
  (∀ p ∈ s.points, p.coords.length = d) ∧ (∀ c ∈ s.centroids, c.coords.length = d)

/-- Relation between a record before and after `assignClusters` over centroids `cs`:
coordinates are kept and the new label is the first nearest centroid among `k`. -/
def Assigned (cs : List Centroid) (k : Nat) (p p' : Point) : Prop :=
  p'.coords = p.coords ∧
  ∃ c : Nat, p'.cluster = (c : Int) ∧
    FirstArgmin (fun j => sqDiffSum p.coords ((cs[j]?).getD ⟨[]⟩).coords p.coords.length) k c

/-- A small state used to instantiate the theorems: three one-dimensional records and two
centroids. -/
def demoState : KMeans :=
  { k := 2, dimensions := 1,
    points := [⟨[-1], -1⟩, ⟨[1], -1⟩, ⟨[3], -1⟩],
    centroids := [⟨[0]⟩, ⟨[2]⟩] }


/-- The records of `pts` labelled with cluster index `i`. -/
def members (pts : List Point) (i : Nat) : List Point :=
  pts.filter (fun p => decide (p.cluster = (i : Int)))

/-- Sum of coordinate `j` over the records `pts`. -/
def coordSum (pts : List Point) (j : Nat) : ℚ :=
  (pts.map (fun p => (p.coords[j]?).getD 0)).sum

/-- The vector `v` has `k` entries, entry `i` being `G i`. -/
def IsVec (k : Nat) (v : List Int) (G : Nat → Int) : Prop :=
  v.length = k ∧ ∀ i, i < k → v[i]? = some (G i)

/-- The nested vector `m` has `k` rows of `d` entries, entry `(i, j)` being `F i j`. -/
def IsMat (k d : Nat) (m : List (List ℚ)) (F : Nat → Nat → ℚ) : Prop :=
  m.length = k ∧ ∀ i, i < k → ∃ row, m[i]? = some row ∧ row.length = d ∧
    ∀ j, j < d → row[j]? = some (F i j)

/-- One iteration body of `run` without the check: `assignClusters` then `updateCentroids`. -/
def cycle (s : KMeans) : Option KMeans := do
  let s1 ← assignClusters s
  updateCentroids s1

/-- The state after `n` assign+update cycles. -/
def cycles : Nat → KMeans → Option KMeans
  | 0, s => some s
  | n + 1, s => do
    let s' ← cycle s
    cycles n s'

/-- The convergence check made by iteration `m + 1` of `run`: the state after `m + 1`
cycles compared with the centroid snapshot taken after `m` cycles. -/
def checkAt (s : KMeans) (m : Nat) : Option Bool := do
  let a ← cycles m s
  let b ← cycle a
  hasConverged b a.centroids tol

/-- Total squared displacement between the centroid set of `s` and the snapshot `old`,
summed over all `k` centroids. -/
def totalDisplacement (s : KMeans) (old : List Centroid) : ℚ :=
  ((List.range s.k.toNat).map (fun i =>
    sqDiffSum ((s.centroids[i]?).getD ⟨[]⟩).coords ((old[i]?).getD ⟨[]⟩).coords
      s.dimensions.toNat)).sum

/-- Two centroids, each `0.008` away from its snapshot position `snapState`. -/
def splitState : KMeans :=
  { k := 2, dimensions := 1, points := [⟨[0], 0⟩, ⟨[0], 1⟩], centroids := [⟨[0]⟩, ⟨[0]⟩] }

/-- Snapshot compared with `splitState`. -/
def splitSnapshot : List Centroid := [⟨[1 / 125]⟩, ⟨[1 / 125]⟩]

/-- A store with one record and `k = 0`. -/
def zeroKState : KMeans :=
  { k := 0, dimensions := 1, points := [⟨[5], -1⟩], centroids := [] }

/-- A random source for examples. -/
def demoRand (i : Nat) : Nat := (7 * i + 4) % 1000

/-- Three one-dimensional records with centroids `0` and `2`; the record `0.998` lies just
left of the midpoint `1`. -/
def driftState : KMeans :=
  { k := 2, dimensions := 1,
    points := [⟨[-998 / 1000], -1⟩, ⟨[998 / 1000], -1⟩, ⟨[1995 / 1000], -1⟩],
    centroids := [⟨[0]⟩, ⟨[2]⟩] }

/-- State after one assign+update cycle from `driftState`. -/
def driftState1 : KMeans :=
  { k := 2, dimensions := 1,
    points := [⟨[-998 / 1000], 0⟩, ⟨[998 / 1000], 0⟩, ⟨[1995 / 1000], 1⟩],
    centroids := [⟨[0]⟩, ⟨[1995 / 1000]⟩] }

/-- State after two assign+update cycles from `driftState`. -/
def driftState2 : KMeans :=
  { k := 2, dimensions := 1,
    points := [⟨[-998 / 1000], 0⟩, ⟨[998 / 1000], 1⟩, ⟨[1995 / 1000], 1⟩],
    centroids := [⟨[-998 / 1000]⟩, ⟨[2993 / 2000]⟩] }

/-- The state `demoState` with the labels an assignment gives it. -/
def demoLabelled : KMeans :=
  { k := 2, dimensions := 1,
    points := [⟨[-1], 0⟩, ⟨[1], 0⟩, ⟨[3], 1⟩],
    centroids := [⟨[0]⟩, ⟨[2]⟩] }

/-- A centroid snapshot of the shape of `demoState`. -/
def demoSnapshot : List Centroid := [⟨[0]⟩, ⟨[1]⟩]

/-- A state whose centroids already are the means of their clusters. -/
def restState : KMeans :=
  { k := 2, dimensions := 1,
    points := [⟨[-1], -1⟩, ⟨[1], -1⟩, ⟨[3], -1⟩],
    centroids := [⟨[0]⟩, ⟨[3]⟩] }

/-- The state `restState` after one assign+update cycle. -/
def restState1 : KMeans :=
  { k := 2, dimensions := 1,
    points := [⟨[-1], 0⟩, ⟨[1], 0⟩, ⟨[3], 1⟩],
    centroids := [⟨[0]⟩, ⟨[3]⟩] }

/-- The four-record scenario: records `(0,0), (0,1), (10,0), (10,1)`, `k = 2`, centroids
seeded at `(0,0)` and `(10,0)`. -/
def squareState : KMeans :=
  { k := 2, dimensions := 2,
    points := [⟨[0, 0], -1⟩, ⟨[0, 1], -1⟩, ⟨[10, 0], -1⟩, ⟨[10, 1], -1⟩],
    centroids := [⟨[0, 0]⟩, ⟨[10, 0]⟩] }

/-- The scenario after the first `assignClusters`. -/
def squareAssigned : KMeans :=
  { k := 2, dimensions := 2,
    points := [⟨[0, 0], 0⟩, ⟨[0, 1], 0⟩, ⟨[10, 0], 1⟩, ⟨[10, 1], 1⟩],
    centroids := [⟨[0, 0]⟩, ⟨[10, 0]⟩] }

/-- The scenario after the first `updateCentroids`. -/
def squareUpdated : KMeans :=
  { k := 2, dimensions := 2,
    points := [⟨[0, 0], 0⟩, ⟨[0, 1], 0⟩, ⟨[10, 0], 1⟩, ⟨[10, 1], 1⟩],
    centroids := [⟨[0, 1 / 2]⟩, ⟨[10, 1 / 2]⟩] }

/-- The record `loadData` builds from a line: its first four fields at most, label `-1`. -/
def recordOf (line : List ℚ) : Point := { coords := line.take 4, cluster := -1 }

/-- An input whose first data line has five fields and whose second has six. -/
def wideLines : List (List ℚ) := [[0], [1, 2, 3, 4, 5], [1, 2, 3, 4, 5, 6]]

/-- An input with data lines of two, three and two fields. -/
def demoLines : List (List ℚ) := [[0], [1, 2], [3, 4, 5], [6, 7]]

/-- Invariant of the reading loop: `dimensions` lies in `[0, 4]`, is at least `1` once a
record is stored, and every stored record has `dimensions` coordinates and label `-1`. -/
structure Loaded (s : KMeans) : Prop where
  dim_lo : 0 ≤ s.dimensions
  dim_hi : s.dimensions ≤ 4
  dim_pos : s.points ≠ [] → 1 ≤ s.dimensions
  shape : ∀ p ∈ s.points, (p.coords.length : Int) = s.dimensions ∧ p.cluster = -1

/-- Two distinct one-dimensional records, `k = 2`, no centroid yet. -/
def pairState : KMeans :=
  { k := 2, dimensions := 1, points := [⟨[0], -1⟩, ⟨[1], -1⟩], centroids := [] }

/-- A random source that always returns `0`. -/
def zeroRand (_ : Nat) : Nat := 0

/-- A random source whose first two values are `1` and `0` modulo `2`. -/
def swapRand (i : Nat) : Nat := (i + 1) % 2

/-- One step of the sum `J`: add `distance(p, centroids[p.cluster])` to the accumulator. -/
def wcssStep (s : KMeans) (acc : ℚ) (p : Point) : Option ℚ := do
  let c ← idx s.centroids p.cluster
  let d ← distance p c
  pure (acc + d)

/-- Within-cluster sum of squared distances `J`: the sum over the records `p` of
`distance(p, centroids[p.cluster])`, computed with the engine's own `distance`. -/
def wcss (s : KMeans) : Option ℚ := s.points.foldlM (wcssStep s) 0

/-- Coordinates of centroid `i` of `cs` (empty when there is none). -/
def centroidAt (cs : List Centroid) (i : Nat) : List ℚ := ((cs[i]?).getD ⟨[]⟩).coords

/-- Sum over the records `pts` of the squared distance, over `d` coordinates, to the
centroid each record is labelled with. -/
def cost (d : Nat) (cs : List Centroid) (pts : List Point) : ℚ :=
  (pts.map (fun p => sqDiffSum p.coords (centroidAt cs p.cluster.toNat) d)).sum

/-- Sum over the records labelled `i` of the squared distance to centroid `i`. -/
def clusterCost (d : Nat) (cs : List Centroid) (pts : List Point) (i : Nat) : ℚ :=
  ((members pts i).map (fun p => sqDiffSum p.coords (centroidAt cs i) d)).sum

/-- Three records all labelled `0` with `k = 2`: cluster `1` has no record. -/
def idleState : KMeans :=
  { k := 2, dimensions := 1,
    points := [⟨[-1], 0⟩, ⟨[1], 0⟩, ⟨[3], 0⟩],
    centroids := [⟨[0]⟩, ⟨[2]⟩] }

/-- Three records and `k = 5`, more clusters than records. -/
def overState : KMeans :=
  { k := 5, dimensions := 1,
    points := [⟨[-1], -1⟩, ⟨[1], -1⟩, ⟨[3], -1⟩],
    centroids := [] }

/-- Three records and the negative cluster count `k = -1`. -/
def negState : KMeans :=
  { k := -1, dimensions := 1,
    points := [⟨[-1], -1⟩, ⟨[1], -1⟩, ⟨[3], -1⟩],
    centroids := [] }
/-! # Theorems -/

/-! ## Loop reasoning -/

theorem foldlM_range'_inv {β : Type} (f : β → Nat → Option β) (Inv : Nat → β → Prop) :
    ∀ (n lo : Nat) (b : β), Inv lo b →
      (∀ i b, lo ≤ i → i < lo + n → Inv i b → ∃ b', f b i = some b' ∧ Inv (i + 1) b') →
      ∃ b', (List.range' lo n).foldlM f b = some b' ∧ Inv (lo + n) b' := by
  intro n
  induction n with
  | zero => intro lo b h0 _; exact ⟨b, by simp [List.range'], by simpa using h0⟩
  | succ n ih =>
    intro lo b h0 step
    obtain ⟨b1, hb1, hI1⟩ := step lo b (le_refl _) (by omega) h0
    obtain ⟨b2, hb2, hI2⟩ := ih (lo + 1) b1 hI1 (fun i b hlo hhi hI =>
      step i b (by omega) (by omega) hI)
    refine ⟨b2, ?_, ?_⟩
    · simp [List.range', List.foldlM, hb1, hb2]
    · have : lo + (n + 1) = lo + 1 + n := by omega
      rw [this]; exact hI2

theorem forLoop_inv {β : Type} (f : β → Nat → Option β) (Inv : Nat → β → Prop)
    (lo hi : Nat) (b : β) (hle : lo ≤ hi) (h0 : Inv lo b)
    (step : ∀ i b, lo ≤ i → i < hi → Inv i b → ∃ b', f b i = some b' ∧ Inv (i + 1) b') :
    ∃ b', forLoop lo hi f b = some b' ∧ Inv hi b' := by
  obtain ⟨b', h1, h2⟩ := foldlM_range'_inv f Inv (hi - lo) lo b h0
    (fun i b h1 h2 hI => step i b h1 (by omega) hI)
  refine ⟨b', h1, ?_⟩
  have : lo + (hi - lo) = hi := by omega
  rwa [this] at h2

theorem sqDiffSum_zero (a b : List ℚ) : sqDiffSum a b 0 = 0 := by
  simp [sqDiffSum]

theorem sqDiffSum_succ (a b : List ℚ) (n : Nat) :
    sqDiffSum a b (n + 1) = sqDiffSum a b n + ((a[n]?).getD 0 - (b[n]?).getD 0) ^ 2 := by
  simp [sqDiffSum, List.range_succ]

theorem sqDiffSum_nonneg (a b : List ℚ) (n : Nat) : 0 ≤ sqDiffSum a b n := by
  induction n with
  | zero => simp [sqDiffSum_zero]
  | succ n ih => rw [sqDiffSum_succ]; positivity

/-! ## `distance` -/

theorem getElem?_of_lt {α : Type} (l : List α) (i : Nat) (h : i < l.length) :
    ∃ x, l[i]? = some x :=
  ⟨l[i], List.getElem?_eq_getElem h⟩

theorem distance_eq (p : Point) (c : Centroid) (h : p.coords.length ≤ c.coords.length) :
    distance p c = some (sqDiffSum p.coords c.coords p.coords.length) := by
  obtain ⟨r, hr, hI⟩ := forLoop_inv (fun sum i => do
      let a ← p.coords[i]?
      let b ← c.coords[i]?
      let diff := a - b
      pure (sum + diff * diff))
    (fun i sum => sum = sqDiffSum p.coords c.coords i) 0 p.coords.length 0 (Nat.zero_le _)
    (sqDiffSum_zero _ _).symm
    (by
      intro i sum _ hi hI
      obtain ⟨x, h1⟩ := getElem?_of_lt p.coords i hi
      obtain ⟨y, h2⟩ := getElem?_of_lt c.coords i (by omega)
      refine ⟨sum + (x - y) * (x - y), by simp only [h1, h2]; rfl, ?_⟩
      show sum + (x - y) * (x - y) = sqDiffSum p.coords c.coords (i + 1)
      rw [sqDiffSum_succ, hI, h1, h2]
      simp only [Option.getD_some]
      ring)
  unfold distance
  rw [hr, hI]

/-! ## `assignClusters` -/

theorem assignScan_spec (cs : List Centroid) (p : Point) (D : Nat → ℚ) (k : Nat) (hk : 1 ≤ k)
    (hD : ∀ j, j < k → ∃ cj, cs[j]? = some cj ∧ distance p cj = some (D j)) :
    ∃ c : Nat, forLoop 1 k (assignStep cs p) (D 0, 0) = some (D c, (c : Int)) ∧
      FirstArgmin D k c := by
  obtain ⟨b, hb, c, hc1, hc2, hc3⟩ := forLoop_inv (assignStep cs p)
    (fun m best => ∃ c : Nat, best = (D c, (c : Int)) ∧ FirstArgmin D m c) 1 k (D 0, 0) hk
    ⟨0, rfl, by omega, fun j hj => by
      have : j = 0 := by omega
      subst this; exact le_refl _, fun j hj => by omega⟩
    (by
      intro i best hi1 hik ⟨c, hbest, hcm, hmin, hfirst⟩
      obtain ⟨ci, hci, hdi⟩ := hD i hik
      subst hbest
      by_cases hlt : D i < D c
      · refine ⟨(D i, (i : Int)), by simp [assignStep, hci, hdi, hlt], i, rfl, by omega, ?_, ?_⟩
        · intro j hj
          rcases Nat.lt_succ_iff_lt_or_eq.mp hj with h | h
          · exact le_of_lt (lt_of_lt_of_le hlt (hmin j h))
          · subst h; exact le_refl _
        · intro j hj
          exact lt_of_lt_of_le hlt (hmin j hj)
      · refine ⟨(D c, (c : Int)), by simp [assignStep, hci, hdi, hlt], c, rfl, by omega, ?_, hfirst⟩
        intro j hj
        rcases Nat.lt_succ_iff_lt_or_eq.mp hj with h | h
        · exact hmin j h
        · subst h; exact not_lt.mp hlt)
  exact ⟨c, by rw [hb, hc1], hc2, hc3⟩

theorem assignPoint_spec (cs : List Centroid) (p : Point) (D : Nat → ℚ) (k : Int) (hk : 1 ≤ k)
    (hD : ∀ j, j < k.toNat → ∃ cj, cs[j]? = some cj ∧ distance p cj = some (D j)) :
    ∃ c : Nat, assignPoint k cs p = some { p with cluster := (c : Int) } ∧
      FirstArgmin D k.toNat c := by
  have hk1 : 1 ≤ k.toNat := by omega
  obtain ⟨c, hc, hA⟩ := assignScan_spec cs p D k.toNat hk1 hD
  obtain ⟨c0, hc0, hd0⟩ := hD 0 (by omega)
  exact ⟨c, by simp [assignPoint, hc0, hd0, hc], hA⟩

theorem assignLoop_spec (k : Int) (cs : List Centroid) (Q : Point → Point → Prop) :
    ∀ ps : List Point, (∀ p ∈ ps, ∃ p', assignPoint k cs p = some p' ∧ Q p p') →
      ∃ ps', assignLoop k cs ps = some ps' ∧ List.Forall₂ Q ps ps' := by
  intro ps
  induction ps with
  | nil => intro _; exact ⟨[], rfl, List.Forall₂.nil⟩
  | cons p ps ih =>
    intro h
    obtain ⟨p', hp', hQ⟩ := h p (List.mem_cons_self _ _)
    obtain ⟨ps', hps', hF⟩ := ih (fun q hq => h q (List.mem_cons_of_mem _ hq))
    exact ⟨p' :: ps', by simp [assignLoop, hp', hps'], List.Forall₂.cons hQ hF⟩

theorem assignClusters_spec (s : KMeans) (d : Nat) (hk : 1 ≤ s.k)
    (hlen : (s.centroids.length : Int) = s.k) (hdim : SameDim s d) :
    ∃ pts, assignClusters s = some { s with points := pts } ∧
      List.Forall₂ (Assigned s.centroids s.k.toNat) s.points pts := by
  obtain ⟨pts, hpts, hF⟩ := assignLoop_spec s.k s.centroids (Assigned s.centroids s.k.toNat)
    s.points (by
      intro p hp
      obtain ⟨c, hc, hA⟩ := assignPoint_spec s.centroids p
        (fun j => sqDiffSum p.coords ((s.centroids[j]?).getD ⟨[]⟩).coords p.coords.length) s.k hk
        (by
          intro j hj
          obtain ⟨cj, hcj⟩ := getElem?_of_lt s.centroids j (by omega)
          refine ⟨cj, hcj, ?_⟩
          have h1 := hdim.1 p hp
          have h2 := hdim.2 cj (List.getElem?_mem hcj)
          show distance p cj = some (sqDiffSum p.coords ((s.centroids[j]?).getD ⟨[]⟩).coords
            p.coords.length)
          rw [distance_eq p cj (by omega), hcj]
          rfl)
      exact ⟨_, hc, rfl, c, rfl, hA⟩)
  exact ⟨pts, by simp [assignClusters, hpts], hF⟩

theorem forall₂_getElem? {α β : Type} (R : α → β → Prop) :
    ∀ (l₁ : List α) (l₂ : List β), List.Forall₂ R l₁ l₂ → ∀ (r : Nat) (y : β),
      l₂[r]? = some y → ∃ x, l₁[r]? = some x ∧ R x y := by
  intro l₁ l₂ h
  induction h with
  | nil => intro r y hy; simp at hy
  | cons hxy _ ih =>
    intro r y hy
    cases r with
    | zero =>
      simp only [List.getElem?_cons_zero, Option.some.injEq] at hy
      subst hy
      exact ⟨_, by simp, hxy⟩
    | succ r =>
      simp only [List.getElem?_cons_succ] at hy
      obtain ⟨x, hx, hR⟩ := ih r y hy
      exact ⟨x, by simpa using hx, hR⟩

theorem forall₂_mem_right {α β : Type} (R : α → β → Prop) (l₁ : List α) (l₂ : List β)
    (h : List.Forall₂ R l₁ l₂) (y : β) (hy : y ∈ l₂) : ∃ x, x ∈ l₁ ∧ R x y := by
  obtain ⟨r, hr⟩ := List.getElem?_of_mem hy
  obtain ⟨x, hx, hR⟩ := forall₂_getElem? R l₁ l₂ h r y hr
  exact ⟨x, List.getElem?_mem hx, hR⟩

theorem demoState_sameDim : SameDim demoState 1 := by
  unfold SameDim; decide

/-- C1: for a centroid set of size `k ≥ 1` and vectors of one common dimension,
`assignClusters` succeeds, and the label `c` it gives each record is an index of a nearest
centroid with lowest-index tie-break: `distance(p, centroids[c]) ≤ distance(p, centroids[j])`
for every `j` in `[0, k)`, strictly so for every `j < c`. -/
theorem assignClusters_nearest (s : KMeans) (d : Nat) (hk : 1 ≤ s.k)
    (hlen : (s.centroids.length : Int) = s.k) (hdim : SameDim s d) :
    ∃ s', assignClusters s = some s' ∧ s'.points.length = s.points.length ∧
      ∀ (r : Nat) (p' : Point), s'.points[r]? = some p' →
        ∃ (c : Nat) (cc : Centroid) (dc : ℚ), p'.cluster = (c : Int) ∧
          s'.centroids[c]? = some cc ∧ distance p' cc = some dc ∧
          ∀ j : Nat, (j : Int) < s.k →
            ∃ (cj : Centroid) (dj : ℚ), s'.centroids[j]? = some cj ∧
              distance p' cj = some dj ∧ dc ≤ dj ∧ (j < c → dc < dj) := by
  obtain ⟨pts, hpts, hF⟩ := assignClusters_spec s d hk hlen hdim
  refine ⟨_, hpts, hF.length_eq.symm, ?_⟩
  intro r p' hp'
  obtain ⟨p, hp, hcoords, c, hc, hcm, hmin, hfirst⟩ :=
    forall₂_getElem? _ _ _ hF r p' hp'
  have hpd : p'.coords.length = d := by rw [hcoords]; exact hdim.1 p (List.getElem?_mem hp)
  have dist_at : ∀ j : Nat, j < s.k.toNat → ∃ cj, s.centroids[j]? = some cj ∧
      distance p' cj = some (sqDiffSum p.coords ((s.centroids[j]?).getD ⟨[]⟩).coords
        p.coords.length) := by
    intro j hj
    obtain ⟨cj, hcj⟩ := getElem?_of_lt s.centroids j (by omega)
    have h2 := hdim.2 cj (List.getElem?_mem hcj)
    refine ⟨cj, hcj, ?_⟩
    rw [distance_eq p' cj (by omega), hcj, hcoords]
    rfl
  obtain ⟨cc, hcc, hdc⟩ := dist_at c hcm
  refine ⟨c, cc, _, hc, hcc, hdc, ?_⟩
  intro j hj
  obtain ⟨cj, hcj, hdj⟩ := dist_at j (by omega)
  exact ⟨cj, _, hcj, hdj, hmin j (by omega), fun h => hfirst j h⟩
/-! ## `updateCentroids` -/

theorem setAt_eq {α : Type} (v : List α) (i : Nat) (x : α) (h : i < v.length) :
    setAt v i x = some (v.set i x) := by
  simp [setAt, h]

theorem idx_natCast {α : Type} (v : List α) (c : Nat) : idx v (c : Int) = v[c]? := by
  simp [idx]

theorem IsMat.congr {k d : Nat} {m : List (List ℚ)} {F G : Nat → Nat → ℚ}
    (h : IsMat k d m F) (hFG : ∀ i, i < k → ∀ j, j < d → F i j = G i j) : IsMat k d m G := by
  refine ⟨h.1, fun i hi => ?_⟩
  obtain ⟨row, hrow, hlen, hval⟩ := h.2 i hi
  exact ⟨row, hrow, hlen, fun j hj => by rw [hval j hj, hFG i hi j hj]⟩

theorem IsMat.setCell {k d : Nat} {m : List (List ℚ)} {F : Nat → Nat → ℚ} (h : IsMat k d m F)
    (i j : Nat) (hi : i < k) (hj : j < d) (row : List ℚ) (hrow : m[i]? = some row) (v : ℚ) :
    IsMat k d (m.set i (row.set j v)) (fun a b => if a = i ∧ b = j then v else F a b) := by
  obtain ⟨hlen, hrows⟩ := h
  refine ⟨by simp [hlen], fun a ha => ?_⟩
  obtain ⟨r, hr, hrl, hrv⟩ := hrows a ha
  by_cases hai : a = i
  · subst hai
    rw [hrow] at hr
    cases hr
    refine ⟨row.set j v, List.getElem?_set_self (by omega), by simp [hrl], fun b hb => ?_⟩
    by_cases hbj : b = j
    · subst hbj
      simp [List.getElem?_set_self (by omega : b < row.length)]
    · rw [List.getElem?_set_ne (fun h => hbj h.symm), hrv b hb]
      simp [hbj]
  · refine ⟨r, by rw [List.getElem?_set_ne (fun h => hai h.symm)]; exact hr, hrl, fun b hb => ?_⟩
    rw [hrv b hb]
    simp [hai]

theorem IsVec.setEntry {k : Nat} {v : List Int} {G : Nat → Int} (h : IsVec k v G) (i : Nat)
    (hi : i < k) (x : Int) : IsVec k (v.set i x) (fun a => if a = i then x else G a) := by
  refine ⟨by simp [h.1], fun a ha => ?_⟩
  by_cases hai : a = i
  · subst hai
    simp [List.getElem?_set_self (by rw [h.1]; exact ha : a < v.length)]
  · rw [List.getElem?_set_ne (fun h => hai h.symm), h.2 a ha]
    simp [hai]

theorem addCoord_loop (k d : Nat) (p : Point) (c : Nat) (hc : c < k)
    (hp : p.coords.length = d) (nc : List (List ℚ)) (F : Nat → Nat → ℚ)
    (hM : IsMat k d nc F) :
    ∃ nc', forLoop 0 d (addCoord p (c : Int)) nc = some nc' ∧
      IsMat k d nc' (fun i j => F i j + if i = c then (p.coords[j]?).getD 0 else 0) := by
  obtain ⟨nc', h1, h2⟩ := forLoop_inv (addCoord p (c : Int))
    (fun n m => IsMat k d m
      (fun i j => F i j + if i = c ∧ j < n then (p.coords[j]?).getD 0 else 0))
    0 d nc (Nat.zero_le _) (hM.congr (fun i _ j _ => by simp))
    (by
      intro j m _ hj hI
      obtain ⟨row, hrow, hrl, hrv⟩ := hI.2 c hc
      obtain ⟨y, hy⟩ := getElem?_of_lt p.coords j (by omega)
      have hx := hrv j hj
      simp only [lt_irrefl, and_false, if_false, add_zero] at hx
      refine ⟨m.set c (row.set j (F c j + y)), ?_, ?_⟩
      · simp only [addCoord, idx_natCast, hrow, hx, hy, Option.bind_eq_bind, Option.some_bind,
          Int.toNat_ofNat]
        rw [setAt_eq row j _ (by omega)]
        simp only [Option.some_bind]
        exact setAt_eq m c _ (by rw [hI.1]; exact hc)
      · refine (hI.setCell c j hc hj row hrow (F c j + y)).congr (fun a _ b _ => ?_)
        by_cases hac : a = c
        · by_cases hbj : b = j
          · subst hac; subst hbj; simp [hy]
          · have : (b < j + 1) ↔ (b < j) := by omega
            simp [hac, hbj, this]
        · simp [hac])
  exact ⟨nc', h1, h2.congr (fun i _ j hj => by simp [hj])⟩

theorem accumulate_step (k d : Nat) (dimensions : Int) (hd : dimensions.toNat = d) (p : Point)
    (c : Nat) (hpc : p.cluster = (c : Int)) (hc : c < k) (hp : p.coords.length = d)
    (counts : List Int) (nc : List (List ℚ)) (G : Nat → Int) (F : Nat → Nat → ℚ)
    (hV : IsVec k counts G) (hM : IsMat k d nc F) :
    ∃ counts' nc', accumulate dimensions (counts, nc) p = some (counts', nc') ∧
      IsVec k counts' (fun i => G i + if i = c then 1 else 0) ∧
      IsMat k d nc' (fun i j => F i j + if i = c then (p.coords[j]?).getD 0 else 0) := by
  obtain ⟨nc', h1, h2⟩ := addCoord_loop k d p c hc hp nc F hM
  refine ⟨counts.set c (G c + 1), nc', ?_, ?_, h2⟩
  · simp only [accumulate, hpc, idx_natCast, hV.2 c hc, Option.bind_eq_bind, Option.some_bind,
      Int.toNat_ofNat, hd]
    rw [setAt_eq counts c _ (by rw [hV.1]; exact hc)]
    simp only [Option.some_bind, h1]
    rfl
  · refine ⟨(hV.setEntry c hc (G c + 1)).1, fun a ha => ?_⟩
    rw [(hV.setEntry c hc (G c + 1)).2 a ha]
    by_cases hac : a = c
    · subst hac; simp
    · simp [hac]

theorem members_cons (p : Point) (ps : List Point) (i : Nat) :
    members (p :: ps) i = if p.cluster = (i : Int) then p :: members ps i else members ps i := by
  by_cases h : p.cluster = (i : Int) <;> simp [members, List.filter_cons, h]

theorem coordSum_cons (p : Point) (ps : List Point) (j : Nat) :
    coordSum (p :: ps) j = (p.coords[j]?).getD 0 + coordSum ps j := by
  simp [coordSum]

theorem accumulate_loop (k d : Nat) (dimensions : Int) (hd : dimensions.toNat = d) :
    ∀ (pts : List Point),
      (∀ p ∈ pts, p.coords.length = d ∧ ∃ c : Nat, p.cluster = (c : Int) ∧ c < k) →
      ∀ (counts : List Int) (nc : List (List ℚ)) (G : Nat → Int) (F : Nat → Nat → ℚ),
      IsVec k counts G → IsMat k d nc F →
      ∃ counts' nc', pts.foldlM (accumulate dimensions) (counts, nc) = some (counts', nc') ∧
        IsVec k counts' (fun i => G i + ((members pts i).length : Int)) ∧
        IsMat k d nc' (fun i j => F i j + coordSum (members pts i) j) := by
  intro pts
  induction pts with
  | nil =>
    intro _ counts nc G F hV hM
    refine ⟨counts, nc, rfl, ⟨hV.1, fun i hi => ?_⟩, hM.congr (fun i _ j _ => ?_)⟩
    · rw [hV.2 i hi]; simp [members]
    · simp [members, coordSum]
  | cons p ps ih =>
    intro hpts counts nc G F hV hM
    obtain ⟨hp, c, hpc, hc⟩ := hpts p (List.mem_cons_self _ _)
    obtain ⟨counts1, nc1, h1, hV1, hM1⟩ :=
      accumulate_step k d dimensions hd p c hpc hc hp counts nc G F hV hM
    obtain ⟨counts2, nc2, h2, hV2, hM2⟩ :=
      ih (fun q hq => hpts q (List.mem_cons_of_mem _ hq)) counts1 nc1 _ _ hV1 hM1
    refine ⟨counts2, nc2, ?_, ⟨hV2.1, fun i hi => ?_⟩, hM2.congr (fun i _ j _ => ?_)⟩
    · simp only [List.foldlM_cons, h1, Option.bind_eq_bind, Option.some_bind]
      exact h2
    · rw [hV2.2 i hi]
      beta_reduce
      rw [members_cons, hpc]
      by_cases hic : i = c
      · subst hic; simp; ring
      · have : ¬ ((c : Int) = (i : Int)) := fun h => hic (by omega)
        simp [hic, this]
    · beta_reduce
      rw [members_cons, hpc]
      by_cases hic : i = c
      · subst hic; simp [coordSum_cons]; ring
      · have : ¬ ((c : Int) = (i : Int)) := fun h => hic (by omega)
        simp [hic, this]

theorem isVec_replicate (k : Nat) : IsVec k (List.replicate k (0 : Int)) (fun _ => 0) := by
  refine ⟨by simp, fun i hi => ?_⟩
  simp [List.getElem?_replicate, hi]

theorem isMat_replicate (k d : Nat) :
    IsMat k d (List.replicate k (List.replicate d (0 : ℚ))) (fun _ _ => 0) := by
  refine ⟨by simp, fun i hi => ⟨List.replicate d 0, ?_, by simp, fun j hj => ?_⟩⟩
  · simp [List.getElem?_replicate, hi]
  · simp [List.getElem?_replicate, hj]

theorem writeCoord_loop (k d : Nat) (nc : List (List ℚ)) (F : Nat → Nat → ℚ)
    (hM : IsMat k d nc F) (n : Int) (i : Nat) (hi : i < k) (cs : List Centroid)
    (H : Nat → Nat → ℚ) (hC : IsMat k d (cs.map Centroid.coords) H) :
    ∃ cs', forLoop 0 d (writeCoord nc n i) cs = some cs' ∧
      IsMat k d (cs'.map Centroid.coords)
        (fun a b => if a = i then F i b / (n : ℚ) else H a b) := by
  obtain ⟨cs', h1, h2⟩ := forLoop_inv (writeCoord nc n i)
    (fun m cur => IsMat k d (cur.map Centroid.coords)
      (fun a b => if a = i ∧ b < m then F i b / (n : ℚ) else H a b))
    0 d cs (Nat.zero_le _) (hC.congr (fun a _ b _ => by simp))
    (by
      intro j cur _ hj hI
      obtain ⟨row, hrow, _, hrv⟩ := hM.2 i hi
      obtain ⟨crow, hcrow, hcl, _⟩ := hI.2 i hi
      have hlen : cur.length = k := by simpa using hI.1
      obtain ⟨ci, hci⟩ := getElem?_of_lt cur i (by omega)
      have hcc : ci.coords = crow := by
        rw [List.getElem?_map, hci] at hcrow
        simpa using hcrow
      refine ⟨cur.set i ⟨ci.coords.set j (F i j / (n : ℚ))⟩, ?_, ?_⟩
      · simp only [writeCoord, hrow, hrv j hj, hci, Option.bind_eq_bind, Option.some_bind]
        rw [setAt_eq ci.coords j _ (by rw [hcc]; omega)]
        simp only [Option.some_bind]
        exact setAt_eq cur i _ (by omega)
      · beta_reduce
        rw [List.map_set, hcc]
        refine (hI.setCell i j hi hj crow hcrow (F i j / (n : ℚ))).congr (fun a _ b _ => ?_)
        by_cases hai : a = i
        · by_cases hbj : b = j
          · subst hai; subst hbj; simp
          · have : (b < j + 1) ↔ (b < j) := by omega
            simp [hai, hbj, this]
        · simp [hai])
  exact ⟨cs', h1, h2.congr (fun a _ b hb => by simp [hb])⟩

theorem writeCentroid_loop (k d : Nat) (dimensions : Int) (hd : dimensions.toNat = d)
    (counts : List Int) (G : Nat → Int) (hV : IsVec k counts G)
    (nc : List (List ℚ)) (F : Nat → Nat → ℚ) (hM : IsMat k d nc F)
    (cs : List Centroid) (H : Nat → Nat → ℚ) (hC : IsMat k d (cs.map Centroid.coords) H) :
    ∃ cs', forLoop 0 k (writeCentroid dimensions counts nc) cs = some cs' ∧
      IsMat k d (cs'.map Centroid.coords)
        (fun a b => if G a = 0 then H a b else F a b / (G a : ℚ)) := by
  obtain ⟨cs', h1, h2⟩ := forLoop_inv (writeCentroid dimensions counts nc)
    (fun m cur => IsMat k d (cur.map Centroid.coords)
      (fun a b => if a < m ∧ G a ≠ 0 then F a b / (G a : ℚ) else H a b))
    0 k cs (Nat.zero_le _) (hC.congr (fun a _ b _ => by simp))
    (by
      intro i cur _ hi hI
      by_cases hz : G i = 0
      · refine ⟨cur, by simp [writeCentroid, hV.2 i hi, hz], hI.congr (fun a _ b _ => ?_)⟩
        by_cases hai : a = i
        · subst hai; simp [hz]
        · have : (a < i + 1) ↔ (a < i) := by omega
          simp [this]
      · obtain ⟨cur', hc1, hc2⟩ := writeCoord_loop k d nc F hM (G i) i hi cur _ hI
        refine ⟨cur', by simp [writeCentroid, hV.2 i hi, hz, hd, hc1], hc2.congr (fun a _ b _ => ?_)⟩
        by_cases hai : a = i
        · subst hai; simp [hz]
        · have : (a < i + 1) ↔ (a < i) := by omega
          simp [hai, this])
  refine ⟨cs', h1, h2.congr (fun a ha b _ => ?_)⟩
  by_cases hz : G a = 0 <;> simp [hz, ha]

theorem list_eq_of_getElem? {α : Type} (d : Nat) (l₁ l₂ : List α) (h₁ : l₁.length = d)
    (h₂ : l₂.length = d) (h : ∀ j, j < d → l₁[j]? = l₂[j]?) : l₁ = l₂ := by
  apply List.ext_getElem?
  intro j
  by_cases hj : j < d
  · exact h j hj
  · rw [List.getElem?_eq_none (by omega), List.getElem?_eq_none (by omega)]

theorem WF.isMat_centroids {s : KMeans} (hwf : WF s) :
    IsMat s.k.toNat s.dimensions.toNat (s.centroids.map Centroid.coords)
      (fun i j => (((s.centroids[i]?).getD ⟨[]⟩).coords[j]?).getD 0) := by
  have hlen : s.centroids.length = s.k.toNat := by have := hwf.cent_len; omega
  refine ⟨by simp [hlen], fun i hi => ?_⟩
  obtain ⟨ci, hci⟩ := getElem?_of_lt s.centroids i (by omega)
  have hcl := hwf.cent_dim ci (List.getElem?_mem hci)
  refine ⟨ci.coords, by simp [hci], by omega, fun j hj => ?_⟩
  obtain ⟨x, hx⟩ := getElem?_of_lt ci.coords j (by omega)
  simp [hci, hx]

theorem labels_as_nat (s : KMeans) (hwf : WF s) (hl : LabelsInRange s) :
    ∀ p ∈ s.points, p.coords.length = s.dimensions.toNat ∧
      ∃ c : Nat, p.cluster = (c : Int) ∧ c < s.k.toNat := by
  intro p hp
  have h1 := hwf.point_dim p hp
  obtain ⟨h2, h3⟩ := hl p hp
  exact ⟨by omega, p.cluster.toNat, by omega, by omega⟩

/-- Full description of `updateCentroids` on a well-shaped state with labels in range. -/
theorem updateCentroids_spec (s : KMeans) (hwf : WF s) (hl : LabelsInRange s) :
    ∃ cs, updateCentroids s = some { s with centroids := cs } ∧
      IsMat s.k.toNat s.dimensions.toNat (cs.map Centroid.coords)
        (fun i j => if (members s.points i).length = 0
          then (((s.centroids[i]?).getD ⟨[]⟩).coords[j]?).getD 0
          else coordSum (members s.points i) j / ((members s.points i).length : ℚ)) := by
  have hk : 0 ≤ s.k := by have := hwf.cent_len; omega
  obtain ⟨counts, nc, h1, hV, hM⟩ := accumulate_loop s.k.toNat s.dimensions.toNat s.dimensions rfl
    s.points (labels_as_nat s hwf hl) _ _ _ _ (isVec_replicate s.k.toNat)
    (isMat_replicate s.k.toNat s.dimensions.toNat)
  obtain ⟨cs, h2, hC⟩ := writeCentroid_loop s.k.toNat s.dimensions.toNat s.dimensions rfl
    counts _ hV nc _ hM s.centroids _ hwf.isMat_centroids
  refine ⟨cs, ?_, hC.congr (fun i _ j _ => ?_)⟩
  · have hneg : ¬ (s.k < 0 ∨ s.dimensions < 0) := by have := hwf.dim_nonneg; omega
    simp only [updateCentroids, hneg, if_false, h1, Option.bind_eq_bind, Option.some_bind, h2]
    rfl
  · by_cases hz : (members s.points i).length = 0
    · simp [hz]
    · simp [hz]

/-- C3: on a well-shaped state with every label in `[0, k)`, `updateCentroids` succeeds and
every cluster `i` with at least one record labelled `i` gets, in each coordinate
`j < dimensions`, the sum of coordinate `j` over those records divided by their number. -/
theorem updateCentroids_mean (s : KMeans) (hwf : WF s) (hl : LabelsInRange s) :
    ∃ s', updateCentroids s = some s' ∧
      ∀ i : Nat, (i : Int) < s.k → 0 < (members s.points i).length →
        ∃ ci, s'.centroids[i]? = some ci ∧ (ci.coords.length : Int) = s.dimensions ∧
          ∀ j : Nat, (j : Int) < s.dimensions →
            ci.coords[j]? =
              some (coordSum (members s.points i) j / ((members s.points i).length : ℚ)) := by
  obtain ⟨cs, h1, hC⟩ := updateCentroids_spec s hwf hl
  refine ⟨_, h1, fun i hi hpos => ?_⟩
  obtain ⟨row, hrow, hrl, hrv⟩ := hC.2 i (by omega)
  have hlen : cs.length = s.k.toNat := by simpa using hC.1
  obtain ⟨ci, hci⟩ := getElem?_of_lt cs i (by omega)
  have hcc : ci.coords = row := by
    rw [List.getElem?_map, hci] at hrow
    simpa using hrow
  have hd := hwf.dim_nonneg
  refine ⟨ci, hci, by rw [hcc]; omega, fun j hj => ?_⟩
  rw [hcc, hrv j (by omega)]
  simp [Nat.pos_iff_ne_zero.mp hpos]

/-- C4: on a well-shaped state with every label in `[0, k)`, `updateCentroids` succeeds,
leaves every centroid whose cluster has no labelled record exactly as it was, and changes
no record (neither coordinates nor label), nor `k` or `dimensions`. -/
theorem updateCentroids_frame (s : KMeans) (hwf : WF s) (hl : LabelsInRange s) :
    ∃ s', updateCentroids s = some s' ∧ s'.points = s.points ∧ s'.k = s.k ∧
      s'.dimensions = s.dimensions ∧ s'.centroids.length = s.centroids.length ∧
      ∀ i : Nat, (members s.points i).length = 0 → s'.centroids[i]? = s.centroids[i]? := by
  obtain ⟨cs, h1, hC⟩ := updateCentroids_spec s hwf hl
  have hlen : cs.length = s.k.toNat := by simpa using hC.1
  have hlen0 : s.centroids.length = s.k.toNat := by have := hwf.cent_len; omega
  refine ⟨_, h1, rfl, rfl, rfl, by simp [hlen, hlen0], fun i hz => ?_⟩
  by_cases hi : i < s.k.toNat
  · obtain ⟨row, hrow, hrl, hrv⟩ := hC.2 i hi
    obtain ⟨row0, hrow0, hrl0, hrv0⟩ := hwf.isMat_centroids.2 i hi
    obtain ⟨ci, hci⟩ := getElem?_of_lt cs i (by omega)
    obtain ⟨oi, hoi⟩ := getElem?_of_lt s.centroids i (by omega)
    have hcc : ci.coords = row := by
      rw [List.getElem?_map, hci] at hrow
      simpa using hrow
    have hoc : oi.coords = row0 := by
      rw [List.getElem?_map, hoi] at hrow0
      simpa using hrow0
    have : row = row0 := list_eq_of_getElem? _ row row0 hrl hrl0 (fun j hj => by
      rw [hrv j hj, hrv0 j hj]; simp [hz])
    show cs[i]? = s.centroids[i]?
    rw [hci, hoi]
    cases ci; cases oi
    simp only [Option.some.injEq, Centroid.mk.injEq]
    simp only at hcc hoc
    rw [hcc, hoc, this]
  · show cs[i]? = s.centroids[i]?
    rw [List.getElem?_eq_none (by omega), List.getElem?_eq_none (by omega)]

/-! ## Shape preservation -/

theorem WF.sameDim {s : KMeans} (hwf : WF s) : SameDim s s.dimensions.toNat := by
  constructor
  · intro p hp; have := hwf.point_dim p hp; omega
  · intro c hc; have := hwf.cent_dim c hc; omega

theorem assignClusters_wf (s : KMeans) (hk : 1 ≤ s.k) (hwf : WF s) :
    ∃ pts, assignClusters s = some { s with points := pts } ∧
      List.Forall₂ (Assigned s.centroids s.k.toNat) s.points pts ∧
      WF { s with points := pts } ∧ LabelsInRange { s with points := pts } := by
  obtain ⟨pts, h1, hF⟩ := assignClusters_spec s s.dimensions.toNat hk hwf.cent_len hwf.sameDim
  refine ⟨pts, h1, hF, ⟨hwf.dim_nonneg, hwf.cent_len, ?_, hwf.cent_dim⟩, ?_⟩
  · intro p' hp'
    obtain ⟨p, hp, hcoords, _⟩ := forall₂_mem_right _ _ _ hF p' hp'
    show (p'.coords.length : Int) = s.dimensions
    rw [hcoords]
    exact hwf.point_dim p hp
  · intro p' hp'
    obtain ⟨p, hp, _, c, hc, hcm, _⟩ := forall₂_mem_right _ _ _ hF p' hp'
    show 0 ≤ p'.cluster ∧ p'.cluster < s.k
    rw [hc]
    omega

theorem updateCentroids_wf (s : KMeans) (hwf : WF s) (hl : LabelsInRange s) :
    ∃ cs, updateCentroids s = some { s with centroids := cs } ∧
      WF { s with centroids := cs } ∧ LabelsInRange { s with centroids := cs } := by
  obtain ⟨cs, h1, hC⟩ := updateCentroids_spec s hwf hl
  have hlen : cs.length = s.k.toNat := by simpa using hC.1
  have hk : 0 ≤ s.k := by have := hwf.cent_len; omega
  refine ⟨cs, h1, ⟨hwf.dim_nonneg, ?_, hwf.point_dim, ?_⟩, hl⟩
  · show (cs.length : Int) = s.k
    omega
  · intro c hc
    have hc' : c ∈ cs := hc
    obtain ⟨i, hi⟩ := List.getElem?_of_mem hc'
    have hik : i < s.k.toNat := by
      obtain ⟨h, _⟩ := List.getElem?_eq_some_iff.mp hi
      omega
    obtain ⟨row, hrow, hrl, _⟩ := hC.2 i hik
    rw [List.getElem?_map, hi] at hrow
    have hcc : c.coords = row := by simpa using hrow
    have := hwf.dim_nonneg
    show (c.coords.length : Int) = s.dimensions
    rw [hcc]
    omega

/-- One assign+update cycle succeeds on a well-shaped state and keeps it well-shaped, with
labels in range afterwards. -/
theorem cycle_wf (s : KMeans) (hk : 1 ≤ s.k) (hwf : WF s) :
    ∃ pts cs, assignClusters s = some { s with points := pts } ∧
      updateCentroids { s with points := pts } = some { s with points := pts, centroids := cs } ∧
      cycle s = some { s with points := pts, centroids := cs } ∧
      LabelsInRange { s with points := pts } ∧
      WF { s with points := pts, centroids := cs } ∧
      LabelsInRange { s with points := pts, centroids := cs } := by
  obtain ⟨pts, h1, _, hwf1, hl1⟩ := assignClusters_wf s hk hwf
  obtain ⟨cs, h2, hwf2, hl2⟩ := updateCentroids_wf _ hwf1 hl1
  exact ⟨pts, cs, h1, h2, by simp [cycle, h1, h2], hl1, hwf2, hl2⟩

/-! ## `hasConverged` -/

theorem displacement_eq (dimensions : Int) (cs old : List Centroid) (i : Nat) (ci oi : Centroid)
    (hci : cs[i]? = some ci) (hoi : old[i]? = some oi)
    (h1 : dimensions.toNat ≤ ci.coords.length) (h2 : dimensions.toNat ≤ oi.coords.length) :
    displacement dimensions cs old i =
      some (sqDiffSum ci.coords oi.coords dimensions.toNat) := by
  obtain ⟨r, hr, hI⟩ := forLoop_inv (fun dist j => do
      let ci ← cs[i]?
      let a ← ci.coords[j]?
      let oi ← old[i]?
      let b ← oi.coords[j]?
      let diff := a - b
      pure (dist + diff * diff))
    (fun j dist => dist = sqDiffSum ci.coords oi.coords j) 0 dimensions.toNat 0 (Nat.zero_le _)
    (sqDiffSum_zero _ _).symm
    (by
      intro j dist _ hj hI
      obtain ⟨x, hx⟩ := getElem?_of_lt ci.coords j (by omega)
      obtain ⟨y, hy⟩ := getElem?_of_lt oi.coords j (by omega)
      refine ⟨dist + (x - y) * (x - y), by simp [hci, hoi, hx, hy], ?_⟩
      show dist + (x - y) * (x - y) = sqDiffSum ci.coords oi.coords (j + 1)
      rw [sqDiffSum_succ, hI, hx, hy]
      simp only [Option.getD_some]
      ring)
  unfold displacement
  rw [hr, hI]

theorem hasConvergedLoop_spec (dimensions : Int) (cs old : List Centroid) (tol : ℚ)
    (D : Nat → ℚ) :
    ∀ (is : List Nat), (∀ i ∈ is, displacement dimensions cs old i = some (D i)) →
      ∃ b, hasConvergedLoop dimensions cs old tol is = some b ∧
        (b = true ↔ ∀ i ∈ is, D i ≤ tol) := by
  intro is
  induction is with
  | nil => intro _; exact ⟨true, rfl, by simp⟩
  | cons i rest ih =>
    intro h
    obtain ⟨b, hb, hiff⟩ := ih (fun j hj => h j (List.mem_cons_of_mem _ hj))
    have hi := h i (List.mem_cons_self _ _)
    by_cases hgt : D i > tol
    · refine ⟨false, by simp [hasConvergedLoop, hi, hgt], ?_⟩
      constructor
      · intro hf; cases hf
      · intro hall
        exact absurd (hall i (List.mem_cons_self _ _)) (not_le.mpr hgt)
    · refine ⟨b, by simp [hasConvergedLoop, hi, hgt, hb], ?_⟩
      rw [hiff]
      constructor
      · intro hall j hj
        rcases List.mem_cons.mp hj with h' | h'
        · subst h'; exact not_lt.mp hgt
        · exact hall j h'
      · intro hall j hj
        exact hall j (List.mem_cons_of_mem _ hj)

/-- Result of `hasConverged` on a well-shaped state against a snapshot of the same shape. -/
theorem hasConverged_spec (s : KMeans) (old : List Centroid) (tol : ℚ) (hwf : WF s)
    (hlen : old.length = s.centroids.length)
    (hdim : ∀ c ∈ old, (c.coords.length : Int) = s.dimensions) :
    ∃ b, hasConverged s old tol = some b ∧
      (b = true ↔ ∀ i : Nat, i < s.k.toNat →
        sqDiffSum ((s.centroids[i]?).getD ⟨[]⟩).coords ((old[i]?).getD ⟨[]⟩).coords
          s.dimensions.toNat ≤ tol) := by
  have hclen : s.centroids.length = s.k.toNat := by have := hwf.cent_len; omega
  obtain ⟨b, hb, hiff⟩ := hasConvergedLoop_spec s.dimensions s.centroids old tol
    (fun i => sqDiffSum ((s.centroids[i]?).getD ⟨[]⟩).coords ((old[i]?).getD ⟨[]⟩).coords
      s.dimensions.toNat)
    (List.range' 0 s.k.toNat) (by
      intro i hi
      have hik : i < s.k.toNat := by
        have := List.mem_range'_1.mp hi
        omega
      obtain ⟨ci, hci⟩ := getElem?_of_lt s.centroids i (by omega)
      obtain ⟨oi, hoi⟩ := getElem?_of_lt old i (by omega)
      have h1 := hwf.cent_dim ci (List.getElem?_mem hci)
      have h2 := hdim oi (List.getElem?_mem hoi)
      rw [displacement_eq s.dimensions s.centroids old i ci oi hci hoi (by omega) (by omega)]
      beta_reduce
      rw [hci, hoi]
      rfl)
  refine ⟨b, hb, ?_⟩
  rw [hiff]
  constructor
  · intro h i hi
    exact h i (List.mem_range'_1.mpr ⟨Nat.zero_le _, by omega⟩)
  · intro h i hi
    have := List.mem_range'_1.mp hi
    exact h i (by omega)

/-- C5: for a well-shaped state, a snapshot of the same shape and any tolerance,
`hasConverged` returns a result, and it is `true` exactly when, for every centroid index
`i < k`, the squared displacement between `centroids[i]` and `oldCentroids[i]` is `≤ tol`
(each centroid separately). -/
theorem hasConverged_iff_each (s : KMeans) (old : List Centroid) (tol : ℚ) (hwf : WF s)
    (hlen : old.length = s.centroids.length)
    (hdim : ∀ c ∈ old, (c.coords.length : Int) = s.dimensions) :
    ∃ b, hasConverged s old tol = some b ∧
      (b = true ↔ ∀ (i : Nat) (ci oi : Centroid), s.centroids[i]? = some ci →
        old[i]? = some oi → sqDiffSum ci.coords oi.coords ci.coords.length ≤ tol) := by
  obtain ⟨b, hb, hiff⟩ := hasConverged_spec s old tol hwf hlen hdim
  have hclen : s.centroids.length = s.k.toNat := by have := hwf.cent_len; omega
  refine ⟨b, hb, ?_⟩
  rw [hiff]
  constructor
  · intro h i ci oi hci hoi
    have hik : i < s.k.toNat := by
      obtain ⟨h', _⟩ := List.getElem?_eq_some_iff.mp hci
      omega
    have h1 := hwf.cent_dim ci (List.getElem?_mem hci)
    have h2 := h i hik
    rw [hci, hoi] at h2
    have : ci.coords.length = s.dimensions.toNat := by omega
    rw [this]
    exact h2
  · intro h i hi
    obtain ⟨ci, hci⟩ := getElem?_of_lt s.centroids i (by omega)
    obtain ⟨oi, hoi⟩ := getElem?_of_lt old i (by omega)
    have h1 := hwf.cent_dim ci (List.getElem?_mem hci)
    have h2 := h i ci oi hci hoi
    have : ci.coords.length = s.dimensions.toNat := by omega
    rw [hci, hoi, ← this]
    exact h2

/-! ## `run` -/

theorem cycles_succ_of_cycle (s s2 : KMeans) (h : cycle s = some s2) (n : Nat) :
    cycles (n + 1) s = cycles n s2 := by
  simp [cycles, h]

theorem checkAt_zero_of_cycle (s s2 : KMeans) (h : cycle s = some s2) :
    checkAt s 0 = hasConverged s2 s.centroids tol := by
  simp [checkAt, cycles, h]

theorem checkAt_succ_of_cycle (s s2 : KMeans) (h : cycle s = some s2) (m : Nat) :
    checkAt s (m + 1) = checkAt s2 m := by
  simp [checkAt, cycles, h]

/-- Behaviour of the loop of `run` from a well-shaped state: it performs `n ≤ fuel` cycles,
every check before the last is `false`, and the last is `true` unless the budget ran out. -/
theorem runLoop_spec :
    ∀ (fuel iter : Nat) (s : KMeans), 1 ≤ s.k → WF s →
      ∃ sf n, runLoop fuel iter s = some (sf, iter + n) ∧ n ≤ fuel ∧ (1 ≤ fuel → 1 ≤ n) ∧
        cycles n s = some sf ∧ WF sf ∧ sf.k = s.k ∧ sf.dimensions = s.dimensions ∧
        (1 ≤ n → LabelsInRange sf) ∧
        (∀ m, m + 1 < n → checkAt s m = some false) ∧
        (n < fuel → ∃ m, n = m + 1 ∧ checkAt s m = some true) := by
  intro fuel
  induction fuel with
  | zero =>
    intro iter s _ hwf
    exact ⟨s, 0, rfl, le_refl _, fun h => absurd h (by omega), rfl, hwf, rfl, rfl,
      fun h => absurd h (by omega), fun m hm => absurd hm (by omega),
      fun h => absurd h (by omega)⟩
  | succ fuel ih =>
    intro iter s hk hwf
    obtain ⟨pts, cs, h1, h2, hc, _, hwf2, hl2⟩ := cycle_wf s hk hwf
    have hlen : s.centroids.length = cs.length := by
      have h3 := hwf.cent_len
      have h4 : (cs.length : Int) = s.k := hwf2.cent_len
      omega
    obtain ⟨b, hb, _⟩ := hasConverged_spec { s with points := pts, centroids := cs }
      s.centroids tol hwf2 hlen hwf.cent_dim
    cases b with
    | true =>
      refine ⟨_, 1, by simp [runLoop, h1, h2, hb], by omega, fun _ => le_refl _, ?_, hwf2, rfl,
        rfl, fun _ => hl2, fun m hm => absurd hm (by omega), fun _ => ⟨0, rfl, ?_⟩⟩
      · rw [cycles_succ_of_cycle s _ hc]; rfl
      · rw [checkAt_zero_of_cycle s _ hc]; exact hb
    | false =>
      obtain ⟨sf, n, hr, hn, _, hcy, hwff, hkf, hdf, _, hfalse, htrue⟩ :=
        ih (iter + 1) { s with points := pts, centroids := cs } hk hwf2
      have hlf : LabelsInRange sf := by
        cases n with
        | zero =>
          simp only [cycles, Option.some.injEq] at hcy
          rw [← hcy]; exact hl2
        | succ n => exact (by assumption : 1 ≤ n + 1 → LabelsInRange sf) (by omega)
      refine ⟨sf, n + 1, ?_, by omega, fun _ => by omega, ?_, hwff, hkf, hdf, fun _ => hlf,
        ?_, ?_⟩
      · simp only [runLoop, h1, h2, hb, Option.bind_eq_bind, Option.some_bind]
        rw [hr]
        simp [Nat.add_assoc, Nat.add_comm 1 n]
      · rw [cycles_succ_of_cycle s _ hc]; exact hcy
      · intro m hm
        cases m with
        | zero => rw [checkAt_zero_of_cycle s _ hc]; exact hb
        | succ m => rw [checkAt_succ_of_cycle s _ hc]; exact hfalse m (by omega)
      · intro hlt
        obtain ⟨m, hm, hcm⟩ := htrue (by omega)
        exact ⟨m + 1, by omega, by rw [checkAt_succ_of_cycle s _ hc]; exact hcm⟩

/-- C9: from a well-shaped state with `k ≥ 1`, `run` returns after `n` iterations with
`1 ≤ n ≤ 100`; the final state is the state after `n` assign+update cycles; the check of
every iteration before the `n`-th returned `false`; unless `n = 100`, the check of the
`n`-th iteration returned `true`; hence `run` stops right after the first iteration whose
check is `true`, and after exactly 100 iterations when none of the first 100 is. -/
theorem run_iterations (s : KMeans) (hk : 1 ≤ s.k) (hwf : WF s) :
    ∃ sf n, run s = some (sf, n) ∧ 1 ≤ n ∧ n ≤ 100 ∧ cycles n s = some sf ∧
      (∀ m, m + 1 < n → checkAt s m = some false) ∧
      (n < 100 → ∃ m, n = m + 1 ∧ checkAt s m = some true) ∧
      (∀ t, checkAt s t = some true → n ≤ t + 1) ∧
      ((∀ t, t < 100 → checkAt s t ≠ some true) → n = 100) := by
  obtain ⟨sf, n, hr, hn, h1, hcy, _, _, _, _, hfalse, htrue⟩ := runLoop_spec maxIter 0 s hk hwf
  have hmax : maxIter = 100 := rfl
  rw [hmax] at hn h1 htrue
  refine ⟨sf, n, by simpa [run] using hr, h1 (by omega), hn, hcy, hfalse, htrue, ?_, ?_⟩
  · intro t ht
    by_contra hlt
    have := hfalse t (by omega)
    rw [ht] at this
    cases this
  · intro hnone
    by_contra hne
    obtain ⟨m, hm, hcm⟩ := htrue (by omega)
    exact hnone m (by omega) hcm

/-- C2: from a well-shaped state with `k ≥ 1` and arbitrary prior labels, `assignClusters`
succeeds and afterwards every label lies in `[0, k)`; `updateCentroids` then succeeds and
leaves every record unchanged; and `run` ends in a state whose labels all lie in `[0, k)`. -/
theorem labels_in_range (s : KMeans) (hk : 1 ≤ s.k) (hwf : WF s) :
    ∃ s1 s2, assignClusters s = some s1 ∧ s1.k = s.k ∧
      (∀ p ∈ s1.points, 0 ≤ p.cluster ∧ p.cluster < s.k) ∧
      updateCentroids s1 = some s2 ∧ s2.points = s1.points ∧ s2.k = s.k ∧
      ∃ sf n, run s = some (sf, n) ∧ sf.k = s.k ∧
        ∀ p ∈ sf.points, 0 ≤ p.cluster ∧ p.cluster < s.k := by
  obtain ⟨pts, cs, h1, h2, _, hl1, _, _⟩ := cycle_wf s hk hwf
  obtain ⟨sf, n, hr, _, hn, _, _, hkf, _, hlf, _, _⟩ := runLoop_spec maxIter 0 s hk hwf
  refine ⟨_, _, h1, rfl, hl1, h2, rfl, rfl, sf, n, by simpa [run] using hr, hkf, ?_⟩
  have := hlf (hn (by decide))
  intro p hp
  have h := this p hp
  rw [hkf] at h
  exact h

/-! ## `initCentroids` -/

theorem toInt32_eq (x : Nat) (h : x < 2147483648) : toInt32 x = (x : Int) := by
  unfold toInt32
  norm_num
  omega

theorem toSizeT_nonneg (k : Int) (h0 : 0 ≤ k) (h1 : k < 2147483648) : toSizeT k = k.toNat := by
  unfold toSizeT
  norm_num
  rw [Int.emod_eq_of_lt h0 (by omega)]

theorem toSizeT_neg (k : Int) (h0 : k < 0) (h1 : -2147483648 ≤ k) :
    toSizeT k = (k + 18446744073709551616).toNat := by
  unfold toSizeT
  norm_num
  have : k % 18446744073709551616 = k + 18446744073709551616 := by omega
  rw [this]

theorem resize_length (v : List Centroid) (n : Nat) : (resize v n).length = n := by
  simp [resize]
  omega

theorem initLoop_spec (rand : Nat → Nat) (hrand : ∀ i, rand i ≤ RAND_MAX) (points : List Point)
    (k : Nat) (hk : k ≤ points.length) (cs0 : List Centroid) (hlen : cs0.length = k) :
    ∃ cs, forLoop 0 k (initStep rand points) cs0 = some cs ∧ cs.length = k ∧
      ∀ i, i < k → ∃ p, points[rand i % points.length]? = some p ∧
        cs[i]? = some ⟨p.coords⟩ := by
  obtain ⟨cs, h1, h2, h3⟩ := forLoop_inv (initStep rand points)
    (fun m cs => cs.length = k ∧ ∀ i, i < m → ∃ p, points[rand i % points.length]? = some p ∧
        cs[i]? = some ⟨p.coords⟩)
    0 k cs0 (Nat.zero_le _) ⟨hlen, fun i hi => absurd hi (by omega)⟩
    (by
      intro i cs _ hi ⟨hl, hI⟩
      have hpos : 0 < points.length := by omega
      have hlt : rand i % points.length < points.length := Nat.mod_lt _ hpos
      have hr : rand i % points.length < 2147483648 := by
        have h1 := hrand i
        have h2 := Nat.mod_le (rand i) points.length
        unfold RAND_MAX at h1
        omega
      obtain ⟨p, hp⟩ := getElem?_of_lt points _ hlt
      obtain ⟨c, hc⟩ := getElem?_of_lt cs i (by omega)
      refine ⟨cs.set i ⟨p.coords⟩, ?_, by simp [hl], ?_⟩
      · have hne : ¬ points.length = 0 := by omega
        simp only [initStep, hne, if_false, toInt32_eq _ hr, idx_natCast, hp, hc,
          Option.bind_eq_bind, Option.some_bind]
        exact setAt_eq cs i _ (by omega)
      · intro a ha
        by_cases hai : a = i
        · subst hai
          exact ⟨p, hp, List.getElem?_set_self (by omega)⟩
        · obtain ⟨q, hq1, hq2⟩ := hI a (by omega)
          exact ⟨q, hq1, by rw [List.getElem?_set_ne (fun h => hai h.symm)]; exact hq2⟩)
  exact ⟨cs, h1, h2, h3⟩

/-- On `0 ≤ k ≤ |points|` the initializer succeeds, keeps the records, and copies into
centroid `i` the coordinates of the record at index `rand i % |points|`. -/
theorem initCentroids_ok (rand : Nat → Nat) (hrand : ∀ i, rand i ≤ RAND_MAX) (s : KMeans)
    (h0 : 0 ≤ s.k) (h1 : s.k < 2147483648) (hsize : s.k ≤ (s.points.length : Int)) :
    ∃ cs, initCentroids rand s = Except.ok { s with centroids := cs } ∧
      cs.length = s.k.toNat ∧
      ∀ i, i < s.k.toNat → ∃ p, s.points[rand i % s.points.length]? = some p ∧
        cs[i]? = some ⟨p.coords⟩ := by
  obtain ⟨cs, hc1, hc2, hc3⟩ := initLoop_spec rand hrand s.points s.k.toNat (by omega)
    (resize s.centroids s.k.toNat) (resize_length _ _)
  refine ⟨cs, ?_, hc2, hc3⟩
  have hnot : ¬ s.points.length < s.k.toNat := by omega
  simp only [initCentroids, toSizeT_nonneg s.k h0 h1, hnot, if_false, hc1]

/-- C8: for a store of at least `k ≥ 1` records and any values returned by `rand()`,
`initCentroids` succeeds with exactly `k` centroids, centroid `i` holding the coordinates
of the record at index `rand i % size`, and it leaves the records, `k` and `dimensions`
unchanged. -/
theorem initCentroids_copies (rand : Nat → Nat) (hrand : ∀ i, rand i ≤ RAND_MAX) (s : KMeans)
    (hk1 : 1 ≤ s.k) (hk2 : s.k < 2147483648) (hsize : s.k ≤ (s.points.length : Int)) :
    ∃ s', initCentroids rand s = Except.ok s' ∧ s'.points = s.points ∧ s'.k = s.k ∧
      s'.dimensions = s.dimensions ∧ (s'.centroids.length : Int) = s.k ∧
      ∀ i : Nat, (i : Int) < s.k → ∃ p, s.points[rand i % s.points.length]? = some p ∧
        s'.centroids[i]? = some ⟨p.coords⟩ := by
  obtain ⟨cs, h1, h2, h3⟩ := initCentroids_ok rand hrand s (by omega) hk2 hsize
  refine ⟨_, h1, rfl, rfl, rfl, ?_, fun i hi => h3 i (by omega)⟩
  show (cs.length : Int) = s.k
  omega

/-- C7 (as amended): for an `int` value `k` and a store within the addressable size,
`initCentroids` exits fatally when `k < 0` or `k` exceeds the number of records, and
succeeds when `0 ≤ k ≤ |points|`; at `k = 0` it succeeds with an empty centroid set. -/
theorem initCentroids_fatal_iff (rand : Nat → Nat) (hrand : ∀ i, rand i ≤ RAND_MAX)
    (s : KMeans) (hlo : -2147483648 ≤ s.k) (hhi : s.k < 2147483648)
    (hsize : s.points.length < 9223372036854775808) :
    ((s.k < 0 ∨ (s.points.length : Int) < s.k) →
        initCentroids rand s = Except.error Fault.exit1) ∧
    ((0 ≤ s.k ∧ s.k ≤ (s.points.length : Int)) →
        ∃ s', initCentroids rand s = Except.ok s') ∧
    (s.k = 0 → initCentroids rand s = Except.ok { s with centroids := [] }) := by
  refine ⟨?_, ?_, ?_⟩
  · intro h
    have hlt : s.points.length < toSizeT s.k := by
      by_cases hneg : s.k < 0
      · rw [toSizeT_neg s.k hneg hlo]; omega
      · rw [toSizeT_nonneg s.k (by omega) hhi]; omega
    simp [initCentroids, hlt]
  · intro ⟨h0, h1⟩
    obtain ⟨cs, hcs, _⟩ := initCentroids_ok rand hrand s h0 hhi h1
    exact ⟨_, hcs⟩
  · intro hz
    obtain ⟨cs, hcs, hlen, _⟩ := initCentroids_ok rand hrand s (by omega) hhi (by omega)
    have hnil : cs = [] := by
      apply List.eq_nil_of_length_eq_zero
      rw [hlen, hz]
      rfl
    rw [hcs, hnil]

/-- C7 (counterexample): with `k = 0`, which satisfies `k ≤ 0`, `initCentroids` does not
fail: it returns the state with an empty centroid set. -/
theorem initCentroids_zero_k_succeeds :
    zeroKState.k ≤ 0 ∧
      initCentroids demoRand zeroKState = Except.ok { zeroKState with centroids := [] } := by
  constructor
  · decide
  · simp [initCentroids, zeroKState, toSizeT, forLoop, resize]

/-! ## Per-centroid tolerance versus total displacement -/

theorem le_sum_range (f : Nat → ℚ) (hf : ∀ i, 0 ≤ f i) :
    ∀ (n i : Nat), i < n → f i ≤ ((List.range n).map f).sum := by
  intro n
  induction n with
  | zero => intro i hi; omega
  | succ n ih =>
    intro i hi
    have hnn : 0 ≤ ((List.range n).map f).sum :=
      List.sum_nonneg (fun x hx => by
        obtain ⟨j, _, hj⟩ := List.mem_map.mp hx
        rw [← hj]; exact hf j)
    simp only [List.range_succ, List.map_append, List.sum_append, List.map_cons, List.map_nil,
      List.sum_cons, List.sum_nil, add_zero]
    rcases Nat.lt_succ_iff_lt_or_eq.mp hi with h | h
    · have := ih i h
      have := hf n
      linarith
    · subst h; linarith

theorem sum_range_le (f : Nat → ℚ) (t : ℚ) :
    ∀ n : Nat, (∀ i, i < n → f i ≤ t) → ((List.range n).map f).sum ≤ (n : ℚ) * t := by
  intro n
  induction n with
  | zero => intro _; simp
  | succ n ih =>
    intro h
    simp only [List.range_succ, List.map_append, List.sum_append, List.map_cons, List.map_nil,
      List.sum_cons, List.sum_nil, add_zero]
    have h1 := ih (fun i hi => h i (by omega))
    have h2 := h n (by omega)
    push_cast
    linarith

/-- C6 (as amended): with the tolerance `1e-4` of `run`, the check returns a result, which is
`true` exactly when every centroid's own squared displacement is at most `1e-4`; a total
squared displacement of at most `1e-4` is sufficient for convergence, and convergence
bounds the total only by `k` times `1e-4`. -/
theorem hasConverged_total (s : KMeans) (old : List Centroid) (hwf : WF s)
    (hlen : old.length = s.centroids.length)
    (hdim : ∀ c ∈ old, (c.coords.length : Int) = s.dimensions) :
    ∃ b, hasConverged s old (1 / 10000) = some b ∧
      (b = true ↔ ∀ i : Nat, i < s.k.toNat →
        sqDiffSum ((s.centroids[i]?).getD ⟨[]⟩).coords ((old[i]?).getD ⟨[]⟩).coords
          s.dimensions.toNat ≤ 1 / 10000) ∧
      (totalDisplacement s old ≤ 1 / 10000 → b = true) ∧
      (b = true → totalDisplacement s old ≤ (s.k.toNat : ℚ) * (1 / 10000)) := by
  obtain ⟨b, hb, hiff⟩ := hasConverged_spec s old (1 / 10000) hwf hlen hdim
  refine ⟨b, hb, hiff, ?_, ?_⟩
  · intro htot
    unfold totalDisplacement at htot
    rw [hiff]
    intro i hi
    exact le_trans (le_sum_range (fun i =>
      sqDiffSum ((s.centroids[i]?).getD ⟨[]⟩).coords ((old[i]?).getD ⟨[]⟩).coords
        s.dimensions.toNat) (fun j => sqDiffSum_nonneg _ _ _) s.k.toNat i hi) htot
  · intro hbt
    unfold totalDisplacement
    exact sum_range_le _ _ s.k.toNat (hiff.mp hbt)

/-- C6 (counterexample): two centroids each displaced by `0.008` have total squared
displacement `1.28e-4`, which is not below `1e-4`, yet `hasConverged` returns `true`. -/
theorem hasConverged_not_total :
    hasConverged splitState splitSnapshot tol = some true ∧
      ¬ (totalDisplacement splitState splitSnapshot < tol) := by
  constructor
  · simp [hasConverged, hasConvergedLoop, displacement, forLoop, splitState, splitSnapshot, tol,
      List.range', List.foldlM]
    norm_num
  · simp [totalDisplacement, sqDiffSum, splitState, splitSnapshot, tol, List.range_succ]
    norm_num

/-- C10 (counterexample): from `driftState` the first cycle passes the convergence check at
`tol = 1e-4` (centroid 1 moves by `0.005`), yet one additional cycle relabels the record
`0.998` from cluster 0 to cluster 1 and moves both centroids by more than the tolerance. -/
theorem converged_cycle_not_stable :
    cycle driftState = some driftState1 ∧
      hasConverged driftState1 driftState.centroids tol = some true ∧
      cycle driftState1 = some driftState2 ∧
      driftState1.points.map Point.cluster = [0, 0, 1] ∧
      driftState2.points.map Point.cluster = [0, 1, 1] ∧
      hasConverged driftState2 driftState1.centroids tol = some false := by
  have hA1 : assignClusters driftState = some { driftState1 with centroids := [⟨[0]⟩, ⟨[2]⟩] } := by
    simp [assignClusters, assignLoop, assignPoint, assignStep, distance, forLoop, driftState,
      driftState1, List.range', List.foldlM]
    norm_num
  have hU1 : updateCentroids { driftState1 with centroids := [⟨[0]⟩, ⟨[2]⟩] }
      = some driftState1 := by
    simp [updateCentroids, List.replicate, accumulate, addCoord, idx, setAt, forLoop,
      List.range', List.foldlM, writeCentroid, writeCoord, driftState1]
    norm_num
  have hA2 : assignClusters driftState1
      = some { driftState2 with centroids := driftState1.centroids } := by
    simp [assignClusters, assignLoop, assignPoint, assignStep, distance, forLoop, driftState1,
      driftState2, List.range', List.foldlM]
    norm_num
  have hU2 : updateCentroids { driftState2 with centroids := driftState1.centroids }
      = some driftState2 := by
    simp [updateCentroids, List.replicate, accumulate, addCoord, idx, setAt, forLoop,
      List.range', List.foldlM, writeCentroid, writeCoord, driftState1, driftState2]
    norm_num
  refine ⟨?_, ?_, ?_, ?_, ?_, ?_⟩
  · simp only [cycle, hA1, Option.bind_eq_bind, Option.some_bind, hU1]
  · simp [hasConverged, hasConvergedLoop, displacement, forLoop, driftState, driftState1, tol,
      List.range', List.foldlM]
    norm_num
  · simp only [cycle, hA2, Option.bind_eq_bind, Option.some_bind, hU2]
  · simp [driftState1]
  · simp [driftState2]
  · simp [hasConverged, hasConvergedLoop, displacement, forLoop, driftState1, driftState2, tol,
      List.range', List.foldlM]
    norm_num

/-! ## Stability of an exact fixed point -/

theorem FirstArgmin.unique {D : Nat → ℚ} {m c c' : Nat} (h : FirstArgmin D m c)
    (h' : FirstArgmin D m c') : c = c' := by
  obtain ⟨hc, hmin, hfirst⟩ := h
  obtain ⟨hc', hmin', hfirst'⟩ := h'
  rcases Nat.lt_trichotomy c c' with hlt | heq | hgt
  · exact absurd (hfirst' c hlt) (not_lt.mpr (hmin c' hc'))
  · exact heq
  · exact absurd (hfirst c' hgt) (not_lt.mpr (hmin' c hc))

theorem Assigned.fix {cs : List Centroid} {k : Nat} {p p1 p2 : Point}
    (h : Assigned cs k p p1) (h' : Assigned cs k p1 p2) : p2 = p1 := by
  obtain ⟨hco, c, hc, hA⟩ := h
  obtain ⟨hco', c', hc', hA'⟩ := h'
  rw [hco] at hA'
  have hcc : c = c' := hA.unique hA'
  cases p1; cases p2
  simp only at hco' hc hc'
  simp only [Point.mk.injEq]
  exact ⟨hco', by rw [hc', hc, hcc]⟩

theorem forall₂_fix {α : Type} (R : α → α → Prop)
    (hR : ∀ x y z, R x y → R y z → z = y) :
    ∀ (a b : List α), List.Forall₂ R a b → ∀ c, List.Forall₂ R b c → c = b := by
  intro a b h
  induction h with
  | nil => intro c hc; cases hc; rfl
  | cons hxy _ ih =>
    intro c hc
    cases hc with
    | cons hyz hrest =>
      rw [hR _ _ _ hxy hyz, ih _ hrest]

theorem sqDiffSum_self (a : List ℚ) (n : Nat) : sqDiffSum a a n = 0 := by
  induction n with
  | zero => exact sqDiffSum_zero _ _
  | succ n ih => rw [sqDiffSum_succ, ih]; simp

theorem sqDiffSum_nonpos (a b : List ℚ) :
    ∀ n : Nat, sqDiffSum a b n ≤ 0 → ∀ i, i < n → (a[i]?).getD 0 = (b[i]?).getD 0 := by
  intro n
  induction n with
  | zero => intro _ i hi; omega
  | succ n ih =>
    intro h i hi
    rw [sqDiffSum_succ] at h
    have h1 := sqDiffSum_nonneg a b n
    have h2 : 0 ≤ ((a[n]?).getD 0 - (b[n]?).getD 0) ^ 2 := sq_nonneg _
    rcases Nat.lt_succ_iff_lt_or_eq.mp hi with hlt | heq
    · exact ih (by linarith) i hlt
    · subst heq
      have h3 : ((a[i]?).getD 0 - (b[i]?).getD 0) ^ 2 = 0 := by linarith
      have h4 := pow_eq_zero_iff (two_ne_zero) |>.mp h3
      linarith

/-- A check that passes with tolerance `0` means the centroid set equals the snapshot. -/
theorem centroids_eq_of_converged_zero (s : KMeans) (old : List Centroid) (hwf : WF s)
    (hlen : old.length = s.centroids.length)
    (hdim : ∀ c ∈ old, (c.coords.length : Int) = s.dimensions)
    (hconv : hasConverged s old 0 = some true) : s.centroids = old := by
  obtain ⟨b, hb, hiff⟩ := hasConverged_spec s old 0 hwf hlen hdim
  rw [hconv] at hb
  cases hb
  have hall := hiff.mp rfl
  have hclen : s.centroids.length = s.k.toNat := by have := hwf.cent_len; omega
  apply List.ext_getElem?
  intro i
  by_cases hi : i < s.k.toNat
  · obtain ⟨ci, hci⟩ := getElem?_of_lt s.centroids i (by omega)
    obtain ⟨oi, hoi⟩ := getElem?_of_lt old i (by omega)
    have h1 := hwf.cent_dim ci (List.getElem?_mem hci)
    have h2 := hdim oi (List.getElem?_mem hoi)
    have h3 := hall i hi
    rw [hci, hoi] at h3
    simp only [Option.getD_some] at h3
    have h4 := sqDiffSum_nonpos _ _ _ h3
    have : ci.coords = oi.coords :=
      list_eq_of_getElem? s.dimensions.toNat _ _ (by omega) (by omega) (fun j hj => by
        obtain ⟨x, hx⟩ := getElem?_of_lt ci.coords j (by omega)
        obtain ⟨y, hy⟩ := getElem?_of_lt oi.coords j (by omega)
        have := h4 j hj
        rw [hx, hy] at this
        simp only [Option.getD_some] at this
        rw [hx, hy, this])
    rw [hci, hoi]
    cases ci; cases oi
    simp only at this
    rw [this]
  · rw [List.getElem?_eq_none (by omega), List.getElem?_eq_none (by omega)]

/-- A cycle that leaves the centroid set exactly as it was reaches a fixed point of `cycle`. -/
theorem cycle_fixed (s s2 : KMeans) (hk : 1 ≤ s.k) (hwf : WF s) (hc : cycle s = some s2)
    (heq : s2.centroids = s.centroids) : cycle s2 = some s2 := by
  obtain ⟨pts, h1, hF, hwf1, hl1⟩ := assignClusters_wf s hk hwf
  obtain ⟨cs, h2, _, _⟩ := updateCentroids_wf _ hwf1 hl1
  have hs2 : s2 = { s with points := pts, centroids := cs } := by
    simp only [cycle, h1, Option.bind_eq_bind, Option.some_bind] at hc
    rw [h2] at hc
    exact (Option.some.inj hc).symm
  subst hs2
  have hcs : cs = s.centroids := heq
  subst hcs
  obtain ⟨pts', h1', hF', _, _⟩ := assignClusters_wf { s with points := pts } hk hwf1
  have hpts : pts' = pts := forall₂_fix _ (fun x y z hxy hyz => Assigned.fix hxy hyz) _ _ hF _ hF'
  subst hpts
  have h1'' : assignClusters { s with points := pts' } = some { s with points := pts' } := h1'
  have h2' : updateCentroids { s with points := pts' } = some { s with points := pts' } := h2
  show cycle { s with points := pts' } = some { s with points := pts' }
  simp only [cycle, h1'', Option.bind_eq_bind, Option.some_bind]
  exact h2'

theorem isMat_unique {k d : Nat} {m₁ m₂ : List (List ℚ)} {F : Nat → Nat → ℚ}
    (h₁ : IsMat k d m₁ F) (h₂ : IsMat k d m₂ F) : m₁ = m₂ := by
  apply List.ext_getElem?
  intro i
  by_cases hi : i < k
  · obtain ⟨r₁, hr₁, hl₁, hv₁⟩ := h₁.2 i hi
    obtain ⟨r₂, hr₂, hl₂, hv₂⟩ := h₂.2 i hi
    rw [hr₁, hr₂, list_eq_of_getElem? d r₁ r₂ hl₁ hl₂ (fun j hj => by rw [hv₁ j hj, hv₂ j hj])]
  · rw [List.getElem?_eq_none (by rw [h₁.1]; omega), List.getElem?_eq_none (by rw [h₂.1]; omega)]

theorem centroid_coords_injective : Function.Injective Centroid.coords := by
  intro a b h
  cases a; cases b
  simp only at h
  rw [h]

/-- Running `updateCentroids` a second time on its own result changes nothing. -/
theorem updateCentroids_idem (s s2 : KMeans) (hwf : WF s) (hl : LabelsInRange s)
    (h : updateCentroids s = some s2) : updateCentroids s2 = some s2 := by
  obtain ⟨cs, h1, hC⟩ := updateCentroids_spec s hwf hl
  obtain ⟨cs', h1', hwf2, hl2⟩ := updateCentroids_wf s hwf hl
  rw [h1] at h1'
  have hcs : cs' = cs := by
    have := Option.some.inj h1'
    exact (congrArg KMeans.centroids this).symm
  subst hcs
  rw [h1] at h
  have hs2 : s2 = { s with centroids := cs' } := (Option.some.inj h).symm
  subst hs2
  obtain ⟨cs3, h3, hC3⟩ := updateCentroids_spec { s with centroids := cs' } hwf2 hl2
  have hC3' : IsMat s.k.toNat s.dimensions.toNat (cs3.map Centroid.coords)
      (fun i j => if (members s.points i).length = 0
        then (((s.centroids[i]?).getD ⟨[]⟩).coords[j]?).getD 0
        else coordSum (members s.points i) j / ((members s.points i).length : ℚ)) := by
    refine IsMat.congr hC3 (fun i hi j hj => ?_)
    by_cases hz : (members s.points i).length = 0
    · obtain ⟨row, hrow, _, hrv⟩ := hC.2 i hi
      have hlen : cs'.length = s.k.toNat := by simpa using hC.1
      obtain ⟨ci, hci⟩ := getElem?_of_lt cs' i (by omega)
      have hcc : ci.coords = row := by
        rw [List.getElem?_map, hci] at hrow
        simpa using hrow
      have hv := hrv j hj
      simp only [hz, if_true] at hv
      show (if (members s.points i).length = 0
          then (((cs'[i]?).getD ⟨[]⟩).coords[j]?).getD 0
          else coordSum (members s.points i) j / ((members s.points i).length : ℚ)) = _
      simp only [hz, if_true, hci, Option.getD_some, hcc, hv]
    · show (if (members s.points i).length = 0
          then (((cs'[i]?).getD ⟨[]⟩).coords[j]?).getD 0
          else coordSum (members s.points i) j / ((members s.points i).length : ℚ)) = _
      simp only [hz, if_false]
  have hmap : cs3.map Centroid.coords = cs'.map Centroid.coords := isMat_unique hC3' hC
  have hcs3 : cs3 = cs' := List.map_injective_iff.mpr centroid_coords_injective hmap
  rw [h3, hcs3]

/-- C10 (as amended): from a state reached by an assign+update cycle on a well-shaped state,
one additional cycle succeeds; if its assignment changes no record, it moves no centroid,
so the check against the new snapshot passes at `tol = 1e-4`; and its assignment changes no
record when the preceding cycle left every centroid exactly at its snapshot position (the
check passes with tolerance `0`). -/
theorem converged_extra_cycle (s s2 : KMeans) (hk : 1 ≤ s.k) (hwf : WF s)
    (hc : cycle s = some s2) :
    ∃ s3 s4, assignClusters s2 = some s3 ∧ updateCentroids s3 = some s4 ∧
      cycle s2 = some s4 ∧
      (s3.points = s2.points →
        s4.centroids = s2.centroids ∧ hasConverged s4 s2.centroids tol = some true) ∧
      (hasConverged s2 s.centroids 0 = some true → s3.points = s2.points) := by
  obtain ⟨pts, h1, _, hwf1, hl1⟩ := assignClusters_wf s hk hwf
  obtain ⟨cs, h2, hwf2, _⟩ := updateCentroids_wf _ hwf1 hl1
  have hs2 : s2 = { s with points := pts, centroids := cs } := by
    simp only [cycle, h1, Option.bind_eq_bind, Option.some_bind] at hc
    rw [h2] at hc
    exact (Option.some.inj hc).symm
  have hwf2' : WF s2 := by rw [hs2]; exact hwf2
  have hk2 : 1 ≤ s2.k := by rw [hs2]; exact hk
  have hidem : updateCentroids s2 = some s2 := by
    rw [hs2]
    exact updateCentroids_idem _ _ hwf1 hl1 h2
  obtain ⟨pts', h3, _, hwf3, hl3⟩ := assignClusters_wf s2 hk2 hwf2'
  obtain ⟨cs', h4, _, _⟩ := updateCentroids_wf _ hwf3 hl3
  refine ⟨_, _, h3, h4, by simp only [cycle, h3, Option.bind_eq_bind, Option.some_bind, h4],
    ?_, ?_⟩
  · intro hpts
    have hpts' : pts' = s2.points := hpts
    have hs3 : ({ s2 with points := pts' } : KMeans) = s2 := by rw [hpts']
    rw [hs3, hidem] at h4
    have hcs' : s2.centroids = cs' := congrArg KMeans.centroids (Option.some.inj h4)
    refine ⟨hcs'.symm, ?_⟩
    show hasConverged { s2 with points := pts', centroids := cs' } s2.centroids tol = some true
    rw [← hcs', hs3]
    obtain ⟨b, hb, hiff⟩ := hasConverged_spec s2 s2.centroids tol hwf2' rfl hwf2'.cent_dim
    have hbt : b = true := hiff.mpr (fun i _ => by
      rw [sqDiffSum_self]
      unfold tol
      norm_num)
    rw [hb, hbt]
  · intro hconv
    have hlen : s.centroids.length = s2.centroids.length := by
      have h5 := hwf.cent_len
      have h6 := hwf2'.cent_len
      have h7 : s2.k = s.k := by rw [hs2]
      omega
    have hd : s2.dimensions = s.dimensions := by rw [hs2]
    have heq := centroids_eq_of_converged_zero s2 s.centroids hwf2' hlen
      (fun c hc => by rw [hd]; exact hwf.cent_dim c hc) hconv
    have hfix := cycle_fixed s s2 hk hwf hc heq
    simp only [cycle, h3, Option.bind_eq_bind, Option.some_bind] at hfix
    rw [h4] at hfix
    have := congrArg KMeans.points (Option.some.inj hfix)
    exact this

/-! ## Instances on concrete states -/

theorem demoState_wf : WF demoState := ⟨by decide, by decide, by decide, by decide⟩

theorem demoLabelled_wf : WF demoLabelled := ⟨by decide, by decide, by decide, by decide⟩

theorem demoLabelled_labels : LabelsInRange demoLabelled := by
  unfold LabelsInRange; decide

theorem restState_wf : WF restState := ⟨by decide, by decide, by decide, by decide⟩

theorem demoRand_le (i : Nat) : demoRand i ≤ RAND_MAX := by
  unfold demoRand RAND_MAX; omega

/-- C1 (instance): `assignClusters_nearest` applied to `demoState`. -/
theorem assignClusters_nearest_witness :
    (1 ≤ demoState.k ∧ (demoState.centroids.length : Int) = demoState.k ∧
      SameDim demoState 1) ∧
    ∃ s', assignClusters demoState = some s' ∧ s'.points.length = demoState.points.length ∧
      ∀ (r : Nat) (p' : Point), s'.points[r]? = some p' →
        ∃ (c : Nat) (cc : Centroid) (dc : ℚ), p'.cluster = (c : Int) ∧
          s'.centroids[c]? = some cc ∧ distance p' cc = some dc ∧
          ∀ j : Nat, (j : Int) < demoState.k →
            ∃ (cj : Centroid) (dj : ℚ), s'.centroids[j]? = some cj ∧
              distance p' cj = some dj ∧ dc ≤ dj ∧ (j < c → dc < dj) :=
  ⟨⟨by decide, by decide, demoState_sameDim⟩,
    assignClusters_nearest demoState 1 (by decide) (by decide) demoState_sameDim⟩

/-- C2 (instance): `labels_in_range` applied to `demoState`, whose labels start at `-1`. -/
theorem labels_in_range_witness :
    (1 ≤ demoState.k ∧ WF demoState) ∧
    ∃ s1 s2, assignClusters demoState = some s1 ∧ s1.k = demoState.k ∧
      (∀ p ∈ s1.points, 0 ≤ p.cluster ∧ p.cluster < demoState.k) ∧
      updateCentroids s1 = some s2 ∧ s2.points = s1.points ∧ s2.k = demoState.k ∧
      ∃ sf n, run demoState = some (sf, n) ∧ sf.k = demoState.k ∧
        ∀ p ∈ sf.points, 0 ≤ p.cluster ∧ p.cluster < demoState.k :=
  ⟨⟨by decide, demoState_wf⟩, labels_in_range demoState (by decide) demoState_wf⟩

/-- C3 (instance): `updateCentroids_mean` applied to `demoLabelled`. -/
theorem updateCentroids_mean_witness :
    (WF demoLabelled ∧ LabelsInRange demoLabelled) ∧
    ∃ s', updateCentroids demoLabelled = some s' ∧
      ∀ i : Nat, (i : Int) < demoLabelled.k → 0 < (members demoLabelled.points i).length →
        ∃ ci, s'.centroids[i]? = some ci ∧ (ci.coords.length : Int) = demoLabelled.dimensions ∧
          ∀ j : Nat, (j : Int) < demoLabelled.dimensions →
            ci.coords[j]? = some (coordSum (members demoLabelled.points i) j /
              ((members demoLabelled.points i).length : ℚ)) :=
  ⟨⟨demoLabelled_wf, demoLabelled_labels⟩,
    updateCentroids_mean demoLabelled demoLabelled_wf demoLabelled_labels⟩

theorem idleState_wf : WF idleState := ⟨by decide, by decide, by decide, by decide⟩

theorem idleState_labels : LabelsInRange idleState := by
  unfold LabelsInRange; decide

theorem idleState_empty_cluster : (members idleState.points 1).length = 0 := by
  simp [members, idleState]

/-- C4 (instance): `updateCentroids_frame` applied to `idleState`, where all three records
carry label `0` and cluster `1` of the `k = 2` clusters is empty: the update succeeds,
leaves the records as they were and keeps centroid `1` at `(2)`. -/
theorem updateCentroids_frame_witness :
    (WF idleState ∧ LabelsInRange idleState ∧ (members idleState.points 1).length = 0 ∧
      idleState.centroids[1]? = some ⟨[2]⟩) ∧
    (∃ s', updateCentroids idleState = some s' ∧ s'.points = idleState.points ∧
      s'.k = idleState.k ∧ s'.dimensions = idleState.dimensions ∧
      s'.centroids.length = idleState.centroids.length ∧
      ∀ i : Nat, (members idleState.points i).length = 0 →
        s'.centroids[i]? = idleState.centroids[i]?) ∧
    (∃ s', updateCentroids idleState = some s' ∧ s'.points = idleState.points ∧
      s'.centroids[1]? = some ⟨[2]⟩) := by
  refine ⟨⟨idleState_wf, idleState_labels, idleState_empty_cluster, rfl⟩,
    updateCentroids_frame idleState idleState_wf idleState_labels, ?_⟩
  obtain ⟨s', h1, h2, _, _, _, h3⟩ :=
    updateCentroids_frame idleState idleState_wf idleState_labels
  exact ⟨s', h1, h2, by rw [h3 1 idleState_empty_cluster]; rfl⟩

/-- C5 (instance): `hasConverged_iff_each` applied to `demoState` and `demoSnapshot`. -/
theorem hasConverged_iff_each_witness :
    (WF demoState ∧ demoSnapshot.length = demoState.centroids.length ∧
      ∀ c ∈ demoSnapshot, (c.coords.length : Int) = demoState.dimensions) ∧
    ∃ b, hasConverged demoState demoSnapshot (1 / 2) = some b ∧
      (b = true ↔ ∀ (i : Nat) (ci oi : Centroid), demoState.centroids[i]? = some ci →
        demoSnapshot[i]? = some oi → sqDiffSum ci.coords oi.coords ci.coords.length ≤ 1 / 2) :=
  ⟨⟨demoState_wf, by decide, by decide⟩,
    hasConverged_iff_each demoState demoSnapshot (1 / 2) demoState_wf (by decide) (by decide)⟩

/-- C6 (instance): `hasConverged_total` applied to `splitState` and `splitSnapshot`. -/
theorem hasConverged_total_witness :
    (WF splitState ∧ splitSnapshot.length = splitState.centroids.length ∧
      ∀ c ∈ splitSnapshot, (c.coords.length : Int) = splitState.dimensions) ∧
    ∃ b, hasConverged splitState splitSnapshot (1 / 10000) = some b ∧
      (b = true ↔ ∀ i : Nat, i < splitState.k.toNat →
        sqDiffSum ((splitState.centroids[i]?).getD ⟨[]⟩).coords
          ((splitSnapshot[i]?).getD ⟨[]⟩).coords splitState.dimensions.toNat ≤ 1 / 10000) ∧
      (totalDisplacement splitState splitSnapshot ≤ 1 / 10000 → b = true) ∧
      (b = true →
        totalDisplacement splitState splitSnapshot ≤ (splitState.k.toNat : ℚ) * (1 / 10000)) :=
  ⟨⟨⟨by decide, by decide, by decide, by decide⟩, by decide, by decide⟩,
    hasConverged_total splitState splitSnapshot ⟨by decide, by decide, by decide, by decide⟩
      (by decide) (by decide)⟩

/-- C7 (instance): `initCentroids_fatal_iff` applied to `overState` (`k = 5` with three
records: fatal exit), to `negState` (`k = -1`: fatal exit), to `zeroKState` (`k = 0`:
success with an empty centroid set) and to `demoState` (`k = 2` with three records:
success). -/
theorem initCentroids_fatal_iff_witness :
    ((∀ i, demoRand i ≤ RAND_MAX) ∧ -2147483648 ≤ overState.k ∧ overState.k < 2147483648 ∧
      overState.points.length < 9223372036854775808 ∧
      (overState.points.length : Int) < overState.k) ∧
    initCentroids demoRand overState = Except.error Fault.exit1 ∧
    (negState.k < 0 ∧ initCentroids demoRand negState = Except.error Fault.exit1) ∧
    (zeroKState.k = 0 ∧
      initCentroids demoRand zeroKState = Except.ok { zeroKState with centroids := [] }) ∧
    ((0 ≤ demoState.k ∧ demoState.k ≤ (demoState.points.length : Int)) ∧
      ∃ s', initCentroids demoRand demoState = Except.ok s') :=
  ⟨⟨demoRand_le, by decide, by decide, by decide, by decide⟩,
    (initCentroids_fatal_iff demoRand demoRand_le overState (by decide) (by decide)
      (by decide)).1 (Or.inr (by decide)),
    ⟨by decide, (initCentroids_fatal_iff demoRand demoRand_le negState (by decide) (by decide)
      (by decide)).1 (Or.inl (by decide))⟩,
    ⟨rfl, (initCentroids_fatal_iff demoRand demoRand_le zeroKState (by decide) (by decide)
      (by decide)).2.2 rfl⟩,
    ⟨⟨by decide, by decide⟩, (initCentroids_fatal_iff demoRand demoRand_le demoState
      (by decide) (by decide) (by decide)).2.1 ⟨by decide, by decide⟩⟩⟩

/-- C8 (instance): `initCentroids_copies` applied to `demoState` and `demoRand`. -/
theorem initCentroids_copies_witness :
    ((∀ i, demoRand i ≤ RAND_MAX) ∧ 1 ≤ demoState.k ∧ demoState.k < 2147483648 ∧
      demoState.k ≤ (demoState.points.length : Int)) ∧
    ∃ s', initCentroids demoRand demoState = Except.ok s' ∧ s'.points = demoState.points ∧
      s'.k = demoState.k ∧ s'.dimensions = demoState.dimensions ∧
      (s'.centroids.length : Int) = demoState.k ∧
      ∀ i : Nat, (i : Int) < demoState.k →
        ∃ p, demoState.points[demoRand i % demoState.points.length]? = some p ∧
          s'.centroids[i]? = some ⟨p.coords⟩ :=
  ⟨⟨demoRand_le, by decide, by decide, by decide⟩,
    initCentroids_copies demoRand demoRand_le demoState (by decide) (by decide) (by decide)⟩

/-- C9 (instance): `run_iterations` applied to `demoState`. -/
theorem run_iterations_witness :
    (1 ≤ demoState.k ∧ WF demoState) ∧
    ∃ sf n, run demoState = some (sf, n) ∧ 1 ≤ n ∧ n ≤ 100 ∧ cycles n demoState = some sf ∧
      (∀ m, m + 1 < n → checkAt demoState m = some false) ∧
      (n < 100 → ∃ m, n = m + 1 ∧ checkAt demoState m = some true) ∧
      (∀ t, checkAt demoState t = some true → n ≤ t + 1) ∧
      ((∀ t, t < 100 → checkAt demoState t ≠ some true) → n = 100) :=
  ⟨⟨by decide, demoState_wf⟩, run_iterations demoState (by decide) demoState_wf⟩

theorem restState_cycle : cycle restState = some restState1 := by
  have hA : assignClusters restState = some restState1 := by
    simp [assignClusters, assignLoop, assignPoint, assignStep, distance, forLoop, restState,
      restState1, List.range', List.foldlM]
    norm_num
  have hU : updateCentroids restState1 = some restState1 := by
    simp [updateCentroids, List.replicate, accumulate, addCoord, idx, setAt, forLoop,
      List.range', List.foldlM, writeCentroid, writeCoord, restState1]
  simp only [cycle, hA, Option.bind_eq_bind, Option.some_bind, hU]

theorem restState_check : hasConverged restState1 restState.centroids 0 = some true := by
  simp [hasConverged, hasConvergedLoop, displacement, forLoop, restState, restState1,
    List.range', List.foldlM]

/-- C10 (instance): `converged_extra_cycle` applied to `restState`, whose first cycle
moves no centroid. -/
theorem converged_extra_cycle_witness :
    (1 ≤ restState.k ∧ WF restState ∧ cycle restState = some restState1 ∧
      hasConverged restState1 restState.centroids 0 = some true) ∧
    ∃ s3 s4, assignClusters restState1 = some s3 ∧ updateCentroids s3 = some s4 ∧
      cycle restState1 = some s4 ∧
      (s3.points = restState1.points →
        s4.centroids = restState1.centroids ∧
          hasConverged s4 restState1.centroids tol = some true) ∧
      (hasConverged restState1 restState.centroids 0 = some true →
        s3.points = restState1.points) :=
  ⟨⟨by decide, restState_wf, restState_cycle, restState_check⟩,
    converged_extra_cycle restState restState1 (by decide) restState_wf restState_cycle⟩
/-! ## The four-record scenario -/

theorem runLoop_converged (fuel iter : Nat) (s s1 s2 : KMeans)
    (h1 : assignClusters s = some s1) (h2 : updateCentroids s1 = some s2)
    (h3 : hasConverged s2 s.centroids tol = some true) :
    runLoop (fuel + 1) iter s = some (s2, iter + 1) := by
  simp [runLoop, h1, h2, h3]

theorem runLoop_continue (fuel iter : Nat) (s s1 s2 : KMeans)
    (h1 : assignClusters s = some s1) (h2 : updateCentroids s1 = some s2)
    (h3 : hasConverged s2 s.centroids tol = some false) :
    runLoop (fuel + 1) iter s = runLoop fuel (iter + 1) s2 := by
  simp [runLoop, h1, h2, h3]

set_option maxHeartbeats 1000000 in
theorem square_assign_first : assignClusters squareState = some squareAssigned := by
  simp [assignClusters, assignLoop, assignPoint, assignStep, distance, forLoop, squareState,
    squareAssigned, List.range', List.foldlM]
  norm_num

set_option maxHeartbeats 1000000 in
theorem square_update_first : updateCentroids squareAssigned = some squareUpdated := by
  simp [updateCentroids, List.replicate, accumulate, addCoord, idx, setAt, forLoop,
    List.range', List.foldlM, writeCentroid, writeCoord, squareAssigned, squareUpdated]

set_option maxHeartbeats 1000000 in
theorem square_check_first :
    hasConverged squareUpdated squareState.centroids tol = some false := by
  simp [hasConverged, hasConvergedLoop, displacement, forLoop, squareState, squareUpdated,
    tol, List.range', List.foldlM]
  norm_num

set_option maxHeartbeats 1000000 in
theorem square_assign_second : assignClusters squareUpdated = some squareUpdated := by
  simp [assignClusters, assignLoop, assignPoint, assignStep, distance, forLoop,
    squareUpdated, List.range', List.foldlM]
  norm_num

set_option maxHeartbeats 1000000 in
theorem square_update_second : updateCentroids squareUpdated = some squareUpdated := by
  simp [updateCentroids, List.replicate, accumulate, addCoord, idx, setAt, forLoop,
    List.range', List.foldlM, writeCentroid, writeCoord, squareUpdated]

set_option maxHeartbeats 1000000 in
theorem square_check_second :
    hasConverged squareUpdated squareUpdated.centroids tol = some true := by
  simp [hasConverged, hasConvergedLoop, displacement, forLoop, squareUpdated,
    tol, List.range', List.foldlM]
  norm_num

/-- C12: on the records `(0,0), (0,1), (10,0), (10,1)` with `k = 2` and centroids seeded at
`(0,0)` and `(10,0)`: the first assignment gives labels `0,0,1,1`; the first update gives
centroids `(0, 1/2)` and `(10, 1/2)`; the first check is `false`; the second assignment
gives the same labels, the second update the same centroids, the second check is `true`;
and `run` stops after exactly 2 iterations. -/
theorem square_scenario :
    assignClusters squareState = some squareAssigned ∧
      squareAssigned.points.map Point.cluster = [0, 0, 1, 1] ∧
      updateCentroids squareAssigned = some squareUpdated ∧
      squareUpdated.centroids = [⟨[0, 1 / 2]⟩, ⟨[10, 1 / 2]⟩] ∧
      hasConverged squareUpdated squareState.centroids tol = some false ∧
      assignClusters squareUpdated = some squareUpdated ∧
      updateCentroids squareUpdated = some squareUpdated ∧
      hasConverged squareUpdated squareUpdated.centroids tol = some true ∧
      run squareState = some (squareUpdated, 2) := by
  refine ⟨square_assign_first, by simp [squareAssigned], square_update_first, rfl,
    square_check_first, square_assign_second, square_update_second, square_check_second, ?_⟩
  show runLoop (99 + 1) 0 squareState = some (squareUpdated, 2)
  rw [runLoop_continue 99 0 squareState squareAssigned squareUpdated square_assign_first
    square_update_first square_check_first]
  exact runLoop_converged 98 1 squareUpdated squareUpdated squareUpdated square_assign_second
    square_update_second square_check_second

/-! ## `distance` as a sum of squares -/

theorem sqDiffSum_eq_finsum (a b : List ℚ) (n : Nat) :
    sqDiffSum a b n = ∑ i in Finset.range n, ((a[i]?).getD 0 - (b[i]?).getD 0) ^ 2 := by
  induction n with
  | zero => simp [sqDiffSum_zero]
  | succ n ih => rw [sqDiffSum_succ, Finset.sum_range_succ, ih]

theorem sqDiffSum_eq_zero_iff (a b : List ℚ) (h : a.length = b.length) :
    sqDiffSum a b a.length = 0 ↔ a = b := by
  constructor
  · intro h0
    have hpt := sqDiffSum_nonpos a b a.length (le_of_eq h0)
    exact list_eq_of_getElem? a.length a b rfl h.symm (fun j hj => by
      obtain ⟨x, hx⟩ := getElem?_of_lt a j hj
      obtain ⟨y, hy⟩ := getElem?_of_lt b j (by omega)
      have := hpt j hj
      rw [hx, hy] at this
      simp only [Option.getD_some] at this
      rw [hx, hy, this])
  · intro hab
    rw [hab]
    exact sqDiffSum_self _ _

/-- C13: for a record and a centroid with the same number of coordinates, `distance`
returns the sum over all coordinates of the squared coordinate differences (no square
root, no normalisation); the result is non-negative, and it is `0` exactly when the two
coordinate vectors are identical. -/
theorem distance_sum_squares (p : Point) (c : Centroid)
    (h : p.coords.length = c.coords.length) :
    ∃ d : ℚ, distance p c = some d ∧
      d = ∑ i in Finset.range p.coords.length,
        ((p.coords[i]?).getD 0 - (c.coords[i]?).getD 0) ^ 2 ∧
      0 ≤ d ∧ (d = 0 ↔ p.coords = c.coords) :=
  ⟨sqDiffSum p.coords c.coords p.coords.length, distance_eq p c (le_of_eq h),
    sqDiffSum_eq_finsum _ _ _, sqDiffSum_nonneg _ _ _, sqDiffSum_eq_zero_iff _ _ h⟩

/-! ## `assignClusters` ignores prior labels -/

theorem assigned_same (cs : List Centroid) (k : Nat) :
    ∀ (ps qs ps' qs' : List Point), ps.map Point.coords = qs.map Point.coords →
      List.Forall₂ (Assigned cs k) ps ps' → List.Forall₂ (Assigned cs k) qs qs' →
      ps' = qs' := by
  intro ps qs ps' qs' hmap hp
  induction hp generalizing qs qs' with
  | nil =>
    intro hq
    cases qs with
    | nil => cases hq; rfl
    | cons q qs => simp at hmap
  | cons hxy _ ih =>
    intro hq
    cases hq with
    | nil => simp at hmap
    | cons hzw hrest =>
      simp only [List.map_cons, List.cons.injEq] at hmap
      obtain ⟨hco, c, hc, hA⟩ := hxy
      obtain ⟨hco', c', hc', hA'⟩ := hzw
      rw [← hmap.1] at hA'
      have hcc : c = c' := hA.unique hA'
      rw [ih _ _ hmap.2 hrest]
      congr 1
      rename_i x y _ _ _ z w _ _
      cases y; cases w
      simp only at hco hco' hc hc'
      simp only [Point.mk.injEq]
      exact ⟨by rw [hco, hco', hmap.1], by rw [hc, hc', hcc]⟩

theorem assigned_coords (cs : List Centroid) (k : Nat) :
    ∀ (ps ps' : List Point), List.Forall₂ (Assigned cs k) ps ps' →
      ps'.map Point.coords = ps.map Point.coords := by
  intro ps ps' h
  induction h with
  | nil => rfl
  | cons hxy _ ih => simp only [List.map_cons, ih, hxy.1]

/-- C14: for two states with the same centroid set of size `k ≥ 1` and the same coordinate
vectors in the same order, whatever their prior labels, `assignClusters` succeeds on both
and yields the same records (hence the same label for every record); it changes no
record's coordinates, no centroid, and neither `k` nor `dimensions`. -/
theorem assignClusters_labels_independent (s t : KMeans) (d : Nat) (hk : 1 ≤ s.k)
    (hlen : (s.centroids.length : Int) = s.k) (hdim : SameDim s d)
    (htk : t.k = s.k) (htc : t.centroids = s.centroids)
    (htp : t.points.map Point.coords = s.points.map Point.coords) :
    ∃ s' t', assignClusters s = some s' ∧ assignClusters t = some t' ∧
      t'.points = s'.points ∧
      s'.points.map Point.coords = s.points.map Point.coords ∧
      s'.centroids = s.centroids ∧ s'.k = s.k ∧ s'.dimensions = s.dimensions ∧
      t'.centroids = t.centroids ∧ t'.k = t.k ∧ t'.dimensions = t.dimensions := by
  have hdimt : SameDim t d := by
    constructor
    · intro p hp
      have : p.coords ∈ s.points.map Point.coords := by
        rw [← htp]; exact List.mem_map_of_mem _ hp
      obtain ⟨q, hq, hqc⟩ := List.mem_map.mp this
      rw [← hqc]; exact hdim.1 q hq
    · rw [htc]; exact hdim.2
  obtain ⟨pts, h1, hF⟩ := assignClusters_spec s d hk hlen hdim
  obtain ⟨pts', h1', hF'⟩ := assignClusters_spec t d (by rw [htk]; exact hk)
    (by rw [htc, htk]; exact hlen) hdimt
  rw [htc, htk] at hF'
  refine ⟨_, _, h1, h1', ?_, assigned_coords _ _ _ _ hF, rfl, rfl, rfl, rfl, rfl, rfl⟩
  exact assigned_same _ _ _ _ _ _ htp hF' hF

/-! ## Shape of the centroid set through the run -/

theorem cycles_wf :
    ∀ (n : Nat) (s : KMeans), 1 ≤ s.k → WF s →
      ∃ sn, cycles n s = some sn ∧ WF sn ∧ sn.k = s.k ∧ sn.dimensions = s.dimensions := by
  intro n
  induction n with
  | zero => intro s _ hwf; exact ⟨s, rfl, hwf, rfl, rfl⟩
  | succ n ih =>
    intro s hk hwf
    obtain ⟨pts, cs, _, _, hc, _, hwf2, _⟩ := cycle_wf s hk hwf
    obtain ⟨sn, h1, h2, h3, h4⟩ := ih { s with points := pts, centroids := cs } hk hwf2
    exact ⟨sn, by rw [cycles_succ_of_cycle s _ hc]; exact h1, h2, h3, h4⟩

theorem wf_of_shape (s : KMeans) (hk : 1 ≤ s.k) (hlen : (s.centroids.length : Int) = s.k)
    (hp : ∀ p ∈ s.points, (p.coords.length : Int) = s.dimensions)
    (hc : ∀ c ∈ s.centroids, (c.coords.length : Int) = s.dimensions) : WF s := by
  refine ⟨?_, hlen, hp, hc⟩
  obtain ⟨c, hc0⟩ := getElem?_of_lt s.centroids 0 (by omega)
  have := hc c (List.getElem?_mem hc0)
  omega

/-- C17: when the centroid set has exactly `k ≥ 1` centroids and every record and centroid
has `dimensions` coordinates, then after `assignClusters`, after the following
`updateCentroids`, after any number of assign+update cycles and at the end of `run`, the
centroid set still has exactly `k` centroids of `dimensions` coordinates each, and `k` and
`dimensions` are unchanged. -/
theorem centroid_shape_invariant (s : KMeans) (hk : 1 ≤ s.k)
    (hlen : (s.centroids.length : Int) = s.k)
    (hp : ∀ p ∈ s.points, (p.coords.length : Int) = s.dimensions)
    (hc : ∀ c ∈ s.centroids, (c.coords.length : Int) = s.dimensions) :
    (∃ s1 s2, assignClusters s = some s1 ∧ updateCentroids s1 = some s2 ∧
      (s1.k = s.k ∧ s1.dimensions = s.dimensions ∧ (s1.centroids.length : Int) = s.k ∧
        ∀ c ∈ s1.centroids, (c.coords.length : Int) = s.dimensions) ∧
      (s2.k = s.k ∧ s2.dimensions = s.dimensions ∧ (s2.centroids.length : Int) = s.k ∧
        ∀ c ∈ s2.centroids, (c.coords.length : Int) = s.dimensions)) ∧
    (∀ n : Nat, ∃ sn, cycles n s = some sn ∧ sn.k = s.k ∧ sn.dimensions = s.dimensions ∧
      (sn.centroids.length : Int) = s.k ∧
      ∀ c ∈ sn.centroids, (c.coords.length : Int) = s.dimensions) ∧
    (∃ sf n, run s = some (sf, n) ∧ sf.k = s.k ∧ sf.dimensions = s.dimensions ∧
      (sf.centroids.length : Int) = s.k ∧
      ∀ c ∈ sf.centroids, (c.coords.length : Int) = s.dimensions) := by
  have hwf := wf_of_shape s hk hlen hp hc
  refine ⟨?_, ?_, ?_⟩
  · obtain ⟨pts, h1, _, hwf1, hl1⟩ := assignClusters_wf s hk hwf
    obtain ⟨cs, h2, hwf2, _⟩ := updateCentroids_wf _ hwf1 hl1
    exact ⟨_, _, h1, h2, ⟨rfl, rfl, hwf1.cent_len, hwf1.cent_dim⟩,
      ⟨rfl, rfl, hwf2.cent_len, hwf2.cent_dim⟩⟩
  · intro n
    obtain ⟨sn, h1, hwfn, h3, h4⟩ := cycles_wf n s hk hwf
    refine ⟨sn, h1, h3, h4, by rw [← h3]; exact hwfn.cent_len, fun c hc => ?_⟩
    rw [← h4]; exact hwfn.cent_dim c hc
  · obtain ⟨sf, n, hr, _, _, _, hwff, hkf, hdf, _, _, _⟩ := runLoop_spec maxIter 0 s hk hwf
    refine ⟨sf, n, by simpa [run] using hr, hkf, hdf, by rw [← hkf]; exact hwff.cent_len,
      fun c hc => ?_⟩
    rw [← hdf]; exact hwff.cent_dim c hc

/-! ## Exact fixed points -/

theorem cycles_fixed (s : KMeans) (h : cycle s = some s) : ∀ n : Nat, cycles n s = some s := by
  intro n
  induction n with
  | zero => rfl
  | succ n ih => rw [cycles_succ_of_cycle s s h]; exact ih

theorem hasConverged_self (s : KMeans) (hwf : WF s) (t : ℚ) (ht : 0 ≤ t) :
    hasConverged s s.centroids t = some true := by
  obtain ⟨b, hb, hiff⟩ := hasConverged_spec s s.centroids t hwf rfl hwf.cent_dim
  have hbt : b = true := hiff.mpr (fun i _ => by rw [sqDiffSum_self]; exact ht)
  rw [hb, hbt]

/-- C19: from a well-shaped state with `k ≥ 1`, if one assign+update cycle leaves the
centroid set exactly equal to the snapshot taken before it, then every further cycle
returns the very same state (no label and no centroid coordinate changes), and
`hasConverged` against either snapshot returns `true` for every tolerance `≥ 0`. -/
theorem exact_fixed_point_stable (s s2 : KMeans) (hk : 1 ≤ s.k) (hwf : WF s)
    (hc : cycle s = some s2) (heq : s2.centroids = s.centroids) :
    cycle s2 = some s2 ∧ (∀ n : Nat, cycles n s2 = some s2) ∧
      ∀ t : ℚ, 0 ≤ t → hasConverged s2 s.centroids t = some true ∧
        hasConverged s2 s2.centroids t = some true := by
  have hfix := cycle_fixed s s2 hk hwf hc heq
  obtain ⟨pts, cs, _, _, hc', _, hwf2, _⟩ := cycle_wf s hk hwf
  rw [hc] at hc'
  have hwf2' : WF s2 := by rw [Option.some.inj hc']; exact hwf2
  refine ⟨hfix, cycles_fixed s2 hfix, fun t ht => ?_⟩
  have h := hasConverged_self s2 hwf2' t ht
  exact ⟨by rw [← heq]; exact h, h⟩

/-! ## Absence of out-of-bounds accesses -/

/-- C20: when `k ≥ 1`, the centroid set has exactly `k` centroids and every record and
centroid has exactly `dimensions` coordinates (labels arbitrary), `run` returns a result:
no vector access of `run` takes the out-of-bounds branch. For each iteration performed,
`assignClusters`, `updateCentroids` and `hasConverged` each return a result, and every
`distance` between a record and a centroid of the state is defined. -/
theorem run_in_bounds (s : KMeans) (hk : 1 ≤ s.k)
    (hlen : (s.centroids.length : Int) = s.k)
    (hp : ∀ p ∈ s.points, (p.coords.length : Int) = s.dimensions)
    (hc : ∀ c ∈ s.centroids, (c.coords.length : Int) = s.dimensions) :
    ∃ sf n, run s = some (sf, n) ∧
      ∀ m, m < n → ∃ a b c v, cycles m s = some a ∧
        (∀ p ∈ a.points, ∀ ce ∈ a.centroids, ∃ d, distance p ce = some d) ∧
        assignClusters a = some b ∧ updateCentroids b = some c ∧
        hasConverged c a.centroids tol = some v := by
  have hwf := wf_of_shape s hk hlen hp hc
  obtain ⟨sf, n, hr, _, _, _, _, _, _, _, _, _⟩ := runLoop_spec maxIter 0 s hk hwf
  refine ⟨sf, n, by simpa [run] using hr, fun m _ => ?_⟩
  obtain ⟨a, ha, hwfa, hka, _⟩ := cycles_wf m s hk hwf
  have hka' : 1 ≤ a.k := by rw [hka]; exact hk
  obtain ⟨pts, cs, h1, h2, _, _, hwf2, _⟩ := cycle_wf a hka' hwfa
  have hl : a.centroids.length = cs.length := by
    have h3 := hwfa.cent_len
    have h4 : (cs.length : Int) = a.k := hwf2.cent_len
    omega
  obtain ⟨v, hv, _⟩ := hasConverged_spec { a with points := pts, centroids := cs }
    a.centroids tol hwf2 hl hwfa.cent_dim
  refine ⟨a, _, _, v, ha, ?_, h1, h2, hv⟩
  intro p hp ce hce
  have h5 := hwfa.point_dim p hp
  have h6 := hwfa.cent_dim ce hce
  exact ⟨_, distance_eq p ce (by omega)⟩

/-! ## `loadData` -/

theorem readFields_eq (n : Nat) :
    ∀ (fields coords : List ℚ), readFields n fields coords = coords ++ fields.take n := by
  induction n with
  | zero => intro fields coords; simp [readFields]
  | succ n ih =>
    intro fields coords
    cases fields with
    | nil => simp [readFields]
    | cons t rest => simp [readFields, ih]

theorem readFields_four (line : List ℚ) : readFields 4 line [] = line.take 4 := by
  rw [readFields_eq]; simp

/-- One step of the reading loop after the header, on a non-empty line. -/
theorem loadLine_data (s : KMeans) (line : List ℚ) (hne : line ≠ []) :
    loadLine (s, false) line =
      if s.points = [] then
        ({ s with dimensions := ((line.take 4).length : Int),
                  points := [recordOf line] }, false)
      else if (line.take 4).length = toSizeT s.dimensions then
        ({ s with points := s.points ++ [recordOf line] }, false)
      else (s, false) := by
  have h4 : (line.take 4).length < 2147483648 := by
    have := List.length_take_le 4 line
    omega
  have hemp : line.isEmpty = false := by
    cases line with
    | nil => exact absurd rfl hne
    | cons a l => rfl
  by_cases hp : s.points = []
  · have hsz : toSizeT ((line.take 4).length : Int) = (line.take 4).length := by
      rw [toSizeT_nonneg _ (by omega) (by omega)]; exact Int.toNat_ofNat _
    simp only [loadLine, hemp, readFields_four, hp, List.isEmpty_nil, if_true,
      toInt32_eq _ h4, hsz, List.nil_append, recordOf]
    simp
  · have hpe : s.points.isEmpty = false := by
      cases hs : s.points with
      | nil => exact absurd hs hp
      | cons a l => rfl
    simp only [loadLine, hemp, readFields_four, hpe, hp, if_false, recordOf]
    simp

theorem loadLine_empty (st : KMeans × Bool) : loadLine st [] = st := by
  simp [loadLine]

theorem loadLine_header (s : KMeans) (line : List ℚ) (hne : line ≠ []) :
    loadLine (s, true) line = (s, false) := by
  have hemp : line.isEmpty = false := by
    cases line with
    | nil => exact absurd rfl hne
    | cons a l => rfl
  simp [loadLine, hemp]

theorem take_four_pos (line : List ℚ) (hne : line ≠ []) :
    1 ≤ (line.take 4).length ∧ (line.take 4).length ≤ 4 := by
  cases line with
  | nil => exact absurd rfl hne
  | cons a l =>
    have := List.length_take_le 4 (a :: l)
    simp only [List.take_succ_cons, List.length_cons] at *
    omega

/-- One step of the reading loop keeps the invariant, keeps `k` and the centroids, and
either stores nothing or appends the record of the line. -/
theorem loadLine_step (st : KMeans × Bool) (line : List ℚ) (h : Loaded st.1) :
    Loaded (loadLine st line).1 ∧ (loadLine st line).1.k = st.1.k ∧
      (loadLine st line).1.centroids = st.1.centroids ∧
      ((loadLine st line).1.points = st.1.points ∨
        (loadLine st line).1.points = st.1.points ++ [recordOf line]) := by
  obtain ⟨s, flag⟩ := st
  replace h : Loaded s := h
  by_cases hne : line = []
  · subst hne
    rw [loadLine_empty]
    exact ⟨h, rfl, rfl, Or.inl rfl⟩
  · cases flag with
    | true =>
      rw [loadLine_header s line hne]
      exact ⟨h, rfl, rfl, Or.inl rfl⟩
    | false =>
      rw [loadLine_data s line hne]
      obtain ⟨h1, h2⟩ := take_four_pos line hne
      by_cases hp : s.points = []
      · rw [if_pos hp]
        refine ⟨⟨by show (0 : Int) ≤ ((line.take 4).length : Int); omega,
          by show ((line.take 4).length : Int) ≤ 4; omega,
          fun _ => by show (1 : Int) ≤ ((line.take 4).length : Int); omega, ?_⟩,
          rfl, rfl, Or.inr (by simp [hp])⟩
        intro p hp'
        have : p = recordOf line := by simpa using hp'
        subst this
        exact ⟨rfl, rfl⟩
      · rw [if_neg hp]
        have hd := h.dim_lo
        have hd4 := h.dim_hi
        have hsz : toSizeT s.dimensions = s.dimensions.toNat :=
          toSizeT_nonneg _ hd (by omega)
        by_cases heq : (line.take 4).length = toSizeT s.dimensions
        · rw [if_pos heq]
          refine ⟨⟨hd, hd4, fun _ => h.dim_pos hp, ?_⟩, rfl, rfl, Or.inr rfl⟩
          intro p hp'
          rcases List.mem_append.mp hp' with hin | hin
          · exact h.shape p hin
          · have : p = recordOf line := by simpa using hin
            subst this
            refine ⟨?_, rfl⟩
            show ((line.take 4).length : Int) = s.dimensions
            rw [hsz] at heq
            omega
        · rw [if_neg heq]
          exact ⟨h, rfl, rfl, Or.inl rfl⟩

theorem loadFold_spec :
    ∀ (lines : List (List ℚ)) (st : KMeans × Bool), Loaded st.1 →
      Loaded (lines.foldl loadLine st).1 ∧ (lines.foldl loadLine st).1.k = st.1.k ∧
        (lines.foldl loadLine st).1.centroids = st.1.centroids ∧
        ∃ added, (lines.foldl loadLine st).1.points = st.1.points ++ added ∧
          List.Sublist added (lines.map recordOf) := by
  intro lines
  induction lines with
  | nil => intro st h; exact ⟨h, rfl, rfl, [], by simp, List.Sublist.slnil⟩
  | cons l rest ih =>
    intro st h
    obtain ⟨h1, h2, h3, h4⟩ := loadLine_step st l h
    obtain ⟨i1, i2, i3, added, i4, i5⟩ := ih (loadLine st l) h1
    simp only [List.foldl_cons, List.map_cons]
    refine ⟨i1, by rw [i2, h2], by rw [i3, h3], ?_⟩
    rcases h4 with h4 | h4
    · exact ⟨added, by rw [i4, h4], List.Sublist.cons _ i5⟩
    · exact ⟨recordOf l :: added, by rw [i4, h4]; simp, List.Sublist.cons₂ _ i5⟩

theorem construct_loaded (k : Int) : Loaded (construct k) :=
  ⟨le_refl _, by show (0 : Int) ≤ 4; decide, fun h => absurd rfl h, fun p hp => by simp [construct] at hp⟩

/-- C16: after the reading loop of `loadData` on a freshly constructed engine, every stored
record has exactly `dimensions` coordinates and label `-1`, `dimensions` is the coordinate
count of the first stored record, and the stored records are, in input order, records of
lines of the input. If `loadData` returns, its state has these records and `dimensions`. -/
theorem loadData_store_invariant (k : Int) (lines : List (List ℚ)) :
    (∀ p ∈ (loadLines lines (construct k)).points,
      (p.coords.length : Int) = (loadLines lines (construct k)).dimensions ∧
        p.cluster = -1) ∧
    (∀ p0, (loadLines lines (construct k)).points.head? = some p0 →
      (loadLines lines (construct k)).dimensions = (p0.coords.length : Int)) ∧
    List.Sublist (loadLines lines (construct k)).points (lines.map recordOf) ∧
    (∀ rand sf, loadData rand (some lines) (construct k) = Except.ok sf →
      sf.points = (loadLines lines (construct k)).points ∧
        sf.dimensions = (loadLines lines (construct k)).dimensions) := by
  obtain ⟨h1, _, _, added, h4, h5⟩ := loadFold_spec lines (construct k, true)
    (construct_loaded k)
  have hpts : (loadLines lines (construct k)).points = added := by
    show (lines.foldl loadLine (construct k, true)).1.points = added
    rw [h4]; rfl
  refine ⟨h1.shape, ?_, by rw [hpts]; exact h5, ?_⟩
  · intro p0 hp0
    exact ((h1.shape p0 (List.mem_of_mem_head? hp0)).1).symm
  · intro rand sf hsf
    simp only [loadData, initCentroids] at hsf
    split at hsf
    · cases hsf
    · split at hsf
      · cases hsf
      · cases hsf
        exact ⟨rfl, rfl⟩

/-- After the first record is stored, the reading loop appends exactly the records of the
lines whose (capped) field count equals `dimensions`. -/
theorem loadFold_exact :
    ∀ (rest : List (List ℚ)) (s : KMeans), s.points ≠ [] → 1 ≤ s.dimensions →
      s.dimensions ≤ 4 →
      rest.foldl loadLine (s, false) =
        ({ s with points := (s.points ++ List.map recordOf
            (rest.filter (fun l => decide (((l.take 4).length : Int) = s.dimensions)))) },
          false) := by
  intro rest
  induction rest with
  | nil => intro s _ _ _; simp
  | cons l rest ih =>
    intro s hp h1 h4
    have hsz : toSizeT s.dimensions = s.dimensions.toNat := toSizeT_nonneg _ (by omega) (by omega)
    by_cases hne : l = []
    · subst hne
      have hno : ¬ (((([] : List ℚ).take 4).length : Int) = s.dimensions) := by
        simp only [List.take_nil, List.length_nil, Nat.cast_zero]
        omega
      simp only [List.foldl_cons, loadLine_empty, List.filter_cons, hno, decide_False]
      exact ih s hp h1 h4
    · simp only [List.foldl_cons]
      rw [loadLine_data s l hne, if_neg hp]
      by_cases heq : (l.take 4).length = toSizeT s.dimensions
      · have hyes : ((l.take 4).length : Int) = s.dimensions := by rw [hsz] at heq; omega
        rw [if_pos heq, ih { s with points := s.points ++ [recordOf l] } (by simp) h1 h4]
        simp only [List.filter_cons, hyes, decide_True, if_true, List.map_cons,
          List.append_assoc, List.singleton_append]
      · have hno : ¬ (((l.take 4).length : Int) = s.dimensions) := by
          rw [hsz] at heq; omega
        rw [if_neg heq, ih s hp h1 h4]
        simp only [List.filter_cons, hno, decide_False]
        rfl

/-- C15 (as amended): for an input made of a header line, a first data line and further
lines, the reading loop of `loadData` on a fresh engine sets `dimensions` to the field
count of the first data line capped at 4, stores of every line its first four fields at
most, and stores a later line exactly when its capped field count equals `dimensions`.
When no line has more than four fields this is the field count itself: `dimensions` is the
field count of the first data line and a later line is stored iff its field count equals
it. -/
theorem loadData_dimension_rule (k : Int) (header first : List ℚ) (rest : List (List ℚ))
    (hh : header ≠ []) (hf : first ≠ []) :
    (loadLines (header :: first :: rest) (construct k)).dimensions =
        ((min 4 first.length : Nat) : Int) ∧
      (loadLines (header :: first :: rest) (construct k)).points =
        recordOf first ::
          (rest.filter (fun l => decide (min 4 l.length = min 4 first.length))).map recordOf ∧
      ((∀ l ∈ first :: rest, l.length ≤ 4) →
        (loadLines (header :: first :: rest) (construct k)).dimensions = (first.length : Int) ∧
        (loadLines (header :: first :: rest) (construct k)).points =
          (first :: rest.filter (fun l => decide (l.length = first.length))).map
            (fun l => ({ coords := l, cluster := -1 } : Point))) := by
  obtain ⟨h1, h2⟩ := take_four_pos first hf
  have hrun : loadLines (header :: first :: rest) (construct k) =
      ⟨k, ((first.take 4).length : Int), [recordOf first] ++ List.map recordOf
          (rest.filter (fun l => decide (((l.take 4).length : Int)
            = ((first.take 4).length : Int)))), []⟩ := by
    unfold loadLines
    simp only [List.foldl_cons]
    rw [loadLine_header _ _ hh, loadLine_data _ _ hf, if_pos (show (construct k).points = [] from rfl)]
    have hx := loadFold_exact rest ⟨k, ((first.take 4).length : Int), [recordOf first], []⟩
      (by simp) (by show (1 : Int) ≤ ((first.take 4).length : Int); omega)
      (by show ((first.take 4).length : Int) ≤ 4; omega)
    exact congrArg Prod.fst hx
  have hfilter : rest.filter (fun l => decide (((l.take 4).length : Int)
      = ((first.take 4).length : Int)))
      = rest.filter (fun l => decide (min 4 l.length = min 4 first.length)) := by
    apply List.filter_congr
    intro l _
    simp only [List.length_take, Nat.cast_inj]
  refine ⟨?_, ?_, ?_⟩
  · rw [hrun]
    simp only [List.length_take]
  · rw [hrun, hfilter]
    rfl
  · intro hall
    have hfl : first.length ≤ 4 := hall first (List.mem_cons_self _ _)
    have hfilter2 : rest.filter (fun l => decide (min 4 l.length = min 4 first.length))
        = rest.filter (fun l => decide (l.length = first.length)) := by
      apply List.filter_congr
      intro l hl
      have := hall l (List.mem_cons_of_mem _ hl)
      rw [Nat.min_eq_right this, Nat.min_eq_right hfl]
    have hrec : ∀ l ∈ first :: rest, recordOf l = ({ coords := l, cluster := -1 } : Point) := by
      intro l hl
      have := hall l hl
      simp only [recordOf, List.take_of_length_le this]
    refine ⟨?_, ?_⟩
    · rw [hrun]
      simp only [List.length_take, Nat.min_eq_right hfl]
    · rw [hrun, hfilter, hfilter2]
      show recordOf first :: _ = _
      rw [List.map_cons, hrec first (List.mem_cons_self _ _)]
      congr 1
      apply List.map_congr_left
      intro l hl
      exact hrec l (List.mem_cons_of_mem _ (List.mem_of_mem_filter hl))

/-- C15 (counterexample): the first data line of `wideLines` has five fields and the second
has six, yet the loop sets `dimensions` to 4 and stores both lines, cut to four fields. -/
theorem loadData_caps_fields :
    wideLines = [[0], [1, 2, 3, 4, 5], [1, 2, 3, 4, 5, 6]] ∧
      (loadLines wideLines (construct 1)).dimensions = 4 ∧
      (loadLines wideLines (construct 1)).points =
        [⟨[1, 2, 3, 4], -1⟩, ⟨[1, 2, 3, 4], -1⟩] := by
  refine ⟨rfl, ?_, ?_⟩
  · simp [loadLines, loadLine, readFields, construct, wideLines, toInt32, toSizeT]
  · simp [loadLines, loadLine, readFields, construct, wideLines, toInt32, toSizeT]

/-! ## Further instances on concrete states -/

/-- C13 (instance): `distance_sum_squares` applied to the record `(0, 1)` and the centroid
`(10, 0)`. -/
theorem distance_sum_squares_witness :
    (({ coords := [0, 1], cluster := -1 } : Point).coords.length
        = ({ coords := [10, 0] } : Centroid).coords.length) ∧
    ∃ d : ℚ, distance { coords := [0, 1], cluster := -1 } { coords := [10, 0] } = some d ∧
      d = ∑ i in Finset.range ({ coords := [0, 1], cluster := -1 } : Point).coords.length,
        ((({ coords := [0, 1], cluster := -1 } : Point).coords[i]?).getD 0 -
          ((({ coords := [10, 0] } : Centroid).coords)[i]?).getD 0) ^ 2 ∧
      0 ≤ d ∧ (d = 0 ↔ ({ coords := [0, 1], cluster := -1 } : Point).coords
        = ({ coords := [10, 0] } : Centroid).coords) :=
  ⟨rfl, distance_sum_squares { coords := [0, 1], cluster := -1 } { coords := [10, 0] } rfl⟩

/-- C14 (instance): `assignClusters_labels_independent` applied to `demoState` and
`demoLabelled`, which differ only in their labels. -/
theorem assignClusters_labels_independent_witness :
    (1 ≤ demoState.k ∧ (demoState.centroids.length : Int) = demoState.k ∧
      SameDim demoState 1 ∧ demoLabelled.k = demoState.k ∧
      demoLabelled.centroids = demoState.centroids ∧
      demoLabelled.points.map Point.coords = demoState.points.map Point.coords) ∧
    ∃ s' t', assignClusters demoState = some s' ∧ assignClusters demoLabelled = some t' ∧
      t'.points = s'.points ∧
      s'.points.map Point.coords = demoState.points.map Point.coords ∧
      s'.centroids = demoState.centroids ∧ s'.k = demoState.k ∧
      s'.dimensions = demoState.dimensions ∧
      t'.centroids = demoLabelled.centroids ∧ t'.k = demoLabelled.k ∧
      t'.dimensions = demoLabelled.dimensions :=
  ⟨⟨by decide, by decide, demoState_sameDim, rfl, rfl, rfl⟩,
    assignClusters_labels_independent demoState demoLabelled 1 (by decide) (by decide)
      demoState_sameDim rfl rfl rfl⟩

/-- C15 (instance): `loadData_dimension_rule` applied to the header `[0]`, the first data
line `[1, 2]` and the further lines `[3, 4, 5]`, `[6, 7]`. -/
theorem loadData_dimension_rule_witness :
    (([0] : List ℚ) ≠ [] ∧ ([1, 2] : List ℚ) ≠ []) ∧
    ((loadLines ([0] :: [1, 2] :: [[3, 4, 5], [6, 7]]) (construct 2)).dimensions =
        ((min 4 ([1, 2] : List ℚ).length : Nat) : Int) ∧
      (loadLines ([0] :: [1, 2] :: [[3, 4, 5], [6, 7]]) (construct 2)).points =
        recordOf [1, 2] ::
          (([[3, 4, 5], [6, 7]] : List (List ℚ)).filter
            (fun l => decide (min 4 l.length = min 4 ([1, 2] : List ℚ).length))).map recordOf ∧
      ((∀ l ∈ ([1, 2] : List ℚ) :: [[3, 4, 5], [6, 7]], l.length ≤ 4) →
        (loadLines ([0] :: [1, 2] :: [[3, 4, 5], [6, 7]]) (construct 2)).dimensions =
          (([1, 2] : List ℚ).length : Int) ∧
        (loadLines ([0] :: [1, 2] :: [[3, 4, 5], [6, 7]]) (construct 2)).points =
          (([1, 2] : List ℚ) :: ([[3, 4, 5], [6, 7]] : List (List ℚ)).filter
            (fun l => decide (l.length = ([1, 2] : List ℚ).length))).map
            (fun l => ({ coords := l, cluster := -1 } : Point)))) :=
  ⟨⟨by simp, by simp⟩,
    loadData_dimension_rule 2 [0] [1, 2] [[3, 4, 5], [6, 7]] (by simp) (by simp)⟩

/-- C17 (instance): `centroid_shape_invariant` applied to `demoState`. -/
theorem centroid_shape_invariant_witness :
    (1 ≤ demoState.k ∧ (demoState.centroids.length : Int) = demoState.k ∧
      (∀ p ∈ demoState.points, (p.coords.length : Int) = demoState.dimensions) ∧
      (∀ c ∈ demoState.centroids, (c.coords.length : Int) = demoState.dimensions)) ∧
    ((∃ s1 s2, assignClusters demoState = some s1 ∧ updateCentroids s1 = some s2 ∧
      (s1.k = demoState.k ∧ s1.dimensions = demoState.dimensions ∧
        (s1.centroids.length : Int) = demoState.k ∧
        ∀ c ∈ s1.centroids, (c.coords.length : Int) = demoState.dimensions) ∧
      (s2.k = demoState.k ∧ s2.dimensions = demoState.dimensions ∧
        (s2.centroids.length : Int) = demoState.k ∧
        ∀ c ∈ s2.centroids, (c.coords.length : Int) = demoState.dimensions)) ∧
    (∀ n : Nat, ∃ sn, cycles n demoState = some sn ∧ sn.k = demoState.k ∧
      sn.dimensions = demoState.dimensions ∧ (sn.centroids.length : Int) = demoState.k ∧
      ∀ c ∈ sn.centroids, (c.coords.length : Int) = demoState.dimensions) ∧
    (∃ sf n, run demoState = some (sf, n) ∧ sf.k = demoState.k ∧
      sf.dimensions = demoState.dimensions ∧ (sf.centroids.length : Int) = demoState.k ∧
      ∀ c ∈ sf.centroids, (c.coords.length : Int) = demoState.dimensions)) :=
  ⟨⟨by decide, by decide, by decide, by decide⟩,
    centroid_shape_invariant demoState (by decide) (by decide) (by decide) (by decide)⟩

/-- C19 (instance): `exact_fixed_point_stable` applied to `restState`, whose first cycle
leaves both centroids in place. -/
theorem exact_fixed_point_stable_witness :
    (1 ≤ restState.k ∧ WF restState ∧ cycle restState = some restState1 ∧
      restState1.centroids = restState.centroids) ∧
    (cycle restState1 = some restState1 ∧ (∀ n : Nat, cycles n restState1 = some restState1) ∧
      ∀ t : ℚ, 0 ≤ t → hasConverged restState1 restState.centroids t = some true ∧
        hasConverged restState1 restState1.centroids t = some true) :=
  ⟨⟨by decide, restState_wf, restState_cycle, rfl⟩,
    exact_fixed_point_stable restState restState1 (by decide) restState_wf restState_cycle rfl⟩

/-- C20 (instance): `run_in_bounds` applied to `demoState`, whose labels are all `-1`. -/
theorem run_in_bounds_witness :
    (1 ≤ demoState.k ∧ (demoState.centroids.length : Int) = demoState.k ∧
      (∀ p ∈ demoState.points, (p.coords.length : Int) = demoState.dimensions) ∧
      (∀ c ∈ demoState.centroids, (c.coords.length : Int) = demoState.dimensions)) ∧
    ∃ sf n, run demoState = some (sf, n) ∧
      ∀ m, m < n → ∃ a b c v, cycles m demoState = some a ∧
        (∀ p ∈ a.points, ∀ ce ∈ a.centroids, ∃ d, distance p ce = some d) ∧
        assignClusters a = some b ∧ updateCentroids b = some c ∧
        hasConverged c a.centroids tol = some v :=
  ⟨⟨by decide, by decide, by decide, by decide⟩,
    run_in_bounds demoState (by decide) (by decide) (by decide) (by decide)⟩

/-! ## `k` equal to the number of records -/

theorem filter_singleton {α : Type} (P : α → Bool) :
    ∀ (l : List α) (r0 : Nat) (x : α), l[r0]? = some x → P x = true →
      (∀ r y, l[r]? = some y → P y = true → r = r0) → l.filter P = [x] := by
  intro l
  induction l with
  | nil => intro r0 x h; simp at h
  | cons y ys ih =>
    intro r0 x hx hP huniq
    cases r0 with
    | zero =>
      simp only [List.getElem?_cons_zero, Option.some.injEq] at hx
      subst hx
      have hnone : ys.filter P = [] := by
        rw [List.filter_eq_nil_iff]
        intro z hz hPz
        obtain ⟨r, hr⟩ := List.getElem?_of_mem hz
        have := huniq (r + 1) z (by simpa using hr) hPz
        omega
      simp [List.filter_cons, hP, hnone]
    | succ r0 =>
      have hny : ¬ (P y = true) := by
        intro hPy
        have := huniq 0 y (by simp) hPy
        omega
      simp only [List.getElem?_cons_succ] at hx
      have := ih r0 x hx hP (fun r z hr hPz => by
        have := huniq (r + 1) z (by simpa using hr) hPz
        omega)
      simp [List.filter_cons, hny, this]

theorem surj_of_inj (n : Nat) (σ : Nat → Nat) (hσ : ∀ i, i < n → σ i < n)
    (hinj : ∀ i j, i < n → j < n → σ i = σ j → i = j) :
    ∀ r, r < n → ∃ i, i < n ∧ σ i = r := by
  intro r hr
  have hf : Function.Injective (fun i : Fin n => (⟨σ i.1, hσ i.1 i.2⟩ : Fin n)) := by
    intro a b hab
    have : σ a.1 = σ b.1 := congrArg Fin.val hab
    exact Fin.ext (hinj a.1 b.1 a.2 b.2 this)
  obtain ⟨i, hi⟩ := (Finite.injective_iff_surjective.mp hf) ⟨r, hr⟩
  exact ⟨i.1, i.2, congrArg Fin.val hi⟩

/-- With `k` equal to the number of pairwise distinct records and pairwise distinct sampled
indices, after seeding and one assignment the record at index `r` carries the label `c`
with `rand c % n = r`. -/
theorem seeded_assign_labels (rand : Nat → Nat) (s : KMeans) (cs : List Centroid)
    (pts : List Point) (hn : 1 ≤ s.points.length)
    (hpd : ∀ p ∈ s.points, (p.coords.length : Int) = s.dimensions)
    (hdistinct : (s.points.map Point.coords).Nodup)
    (hinj : ∀ i j, i < s.points.length → j < s.points.length →
      rand i % s.points.length = rand j % s.points.length → i = j)
    (hlen : cs.length = s.points.length)
    (hcs : ∀ i, i < s.points.length → ∃ p, s.points[rand i % s.points.length]? = some p ∧
      cs[i]? = some ⟨p.coords⟩)
    (hF : List.Forall₂ (Assigned cs s.points.length) s.points pts) :
    ∀ r p', pts[r]? = some p' → ∃ (p : Point) (c : Nat), s.points[r]? = some p ∧ p'.coords = p.coords ∧
      p'.cluster = (c : Int) ∧ c < s.points.length ∧ rand c % s.points.length = r := by
  intro r p' hp'
  obtain ⟨p, hp, hco, c, hc, hcm, hmin, _⟩ := forall₂_getElem? _ _ _ hF r p' hp'
  have hr : r < s.points.length := (List.getElem?_eq_some_iff.mp hp).1
  obtain ⟨i0, hi0, hσ⟩ := surj_of_inj s.points.length (fun i => rand i % s.points.length)
    (fun i _ => Nat.mod_lt _ (by omega)) hinj r hr
  obtain ⟨q0, hq0, hc0⟩ := hcs i0 hi0
  have hσ' : rand i0 % s.points.length = r := hσ
  rw [hσ', hp] at hq0
  cases hq0
  obtain ⟨q, hq, hcq⟩ := hcs c hcm
  have hD0 := hmin i0 hi0
  simp only [hc0, hcq, Option.getD_some, sqDiffSum_self] at hD0
  have hz : sqDiffSum p.coords q.coords p.coords.length = 0 :=
    le_antisymm hD0 (sqDiffSum_nonneg _ _ _)
  refine ⟨p, c, hp, hco, hc, hcm, ?_⟩
  have hl1 := hpd p (List.getElem?_mem hp)
  have hl2 := hpd q (List.getElem?_mem hq)
  have hpq : p.coords = q.coords := (sqDiffSum_eq_zero_iff _ _ (by omega)).mp hz
  have h1 : (s.points.map Point.coords)[r]? = some p.coords := by
    rw [List.getElem?_map, hp]; rfl
  have h2 : (s.points.map Point.coords)[rand c % s.points.length]? = some p.coords := by
    rw [List.getElem?_map, hq, hpq]; rfl
  exact (List.getElem?_inj (by simpa using hr) hdistinct (h1.trans h2.symm)).symm

/-- C11 (as amended): with coordinates as exact rationals, for a store of `n ≥ 1` pairwise
distinct records of `dimensions` coordinates, `k = n`, and an outcome of the sampling whose
`n` sampled indices are pairwise distinct, `initCentroids`, one `assignClusters` round and
the following `updateCentroids` all succeed; every cluster index in `[0, k)` is the label
of exactly one record; and the update moves no centroid. -/
theorem seeded_singletons (rand : Nat → Nat) (hrand : ∀ i, rand i ≤ RAND_MAX) (s : KMeans)
    (hn : 1 ≤ s.points.length) (hk : s.k = (s.points.length : Int))
    (hk2 : s.k < 2147483648)
    (hpd : ∀ p ∈ s.points, (p.coords.length : Int) = s.dimensions)
    (hdistinct : (s.points.map Point.coords).Nodup)
    (hinj : ∀ i j, i < s.points.length → j < s.points.length →
      rand i % s.points.length = rand j % s.points.length → i = j) :
    ∃ s0 s1 s2 : KMeans, initCentroids rand s = Except.ok s0 ∧ assignClusters s0 = some s1 ∧
      updateCentroids s1 = some s2 ∧
      (∀ i : Nat, i < s.points.length →
        ∃ r : Nat, (∃ p : Point, s1.points[r]? = some p ∧ p.cluster = (i : Int)) ∧
          ∀ (r' : Nat) (p' : Point), s1.points[r']? = some p' → p'.cluster = (i : Int) →
            r' = r) ∧
      s2.centroids = s1.centroids ∧ hasConverged s2 s1.centroids 0 = some true := by
  have hkn : s.k.toNat = s.points.length := by omega
  obtain ⟨cs, h1, hlen, hcs⟩ := initCentroids_ok rand hrand s (by omega) hk2 (by omega)
  rw [hkn] at hlen hcs
  have hd : 0 ≤ s.dimensions := by
    obtain ⟨p, hp⟩ := getElem?_of_lt s.points 0 (by omega)
    have := hpd p (List.getElem?_mem hp)
    omega
  have hwf0 : WF { s with centroids := cs } := by
    refine ⟨hd, by show (cs.length : Int) = s.k; omega, hpd, ?_⟩
    intro c hc
    have hc' : c ∈ cs := hc
    obtain ⟨i, hi⟩ := List.getElem?_of_mem hc'
    have hil : i < s.points.length := by
      obtain ⟨h, _⟩ := List.getElem?_eq_some_iff.mp hi
      omega
    obtain ⟨p, hp, hcp⟩ := hcs i hil
    rw [hi] at hcp
    cases hcp
    exact hpd p (List.getElem?_mem hp)
  obtain ⟨pts, h2, hF, hwf1, hl1⟩ := assignClusters_wf { s with centroids := cs }
    (by show 1 ≤ s.k; omega) hwf0
  have hF' : List.Forall₂ (Assigned cs s.points.length) s.points pts := by
    have : ({ s with centroids := cs } : KMeans).k.toNat = s.points.length := hkn
    rw [← this]; exact hF
  have hlab := seeded_assign_labels rand s cs pts hn hpd hdistinct hinj hlen hcs hF'
  have hplen : pts.length = s.points.length := hF'.length_eq.symm
  have hσlt : ∀ i, rand i % s.points.length < s.points.length :=
    fun i => Nat.mod_lt _ (by omega)
  -- the only record labelled `i` is the one at index `rand i % n`
  have hone : ∀ i : Nat, i < s.points.length →
      ∃ x, pts[rand i % s.points.length]? = some x ∧ x.cluster = (i : Int) ∧
        (∃ p, s.points[rand i % s.points.length]? = some p ∧ x.coords = p.coords) ∧
        ∀ r' p', pts[r']? = some p' → p'.cluster = (i : Int) →
          r' = rand i % s.points.length := by
    intro i hi
    obtain ⟨x, hx⟩ := getElem?_of_lt pts (rand i % s.points.length) (by rw [hplen]; exact hσlt i)
    obtain ⟨p, c, hp, hco, hc, hcn, hσc⟩ := hlab _ x hx
    have hci : c = i := hinj c i hcn hi hσc
    refine ⟨x, hx, by rw [hc, hci], ⟨p, hp, hco⟩, ?_⟩
    intro r' p' hp' hcl
    obtain ⟨_, c', _, _, hc', _, hσc'⟩ := hlab r' p' hp'
    have : c' = i := by rw [hc'] at hcl; exact_mod_cast hcl
    rw [← hσc', this]
  obtain ⟨cs', h3, hC⟩ := updateCentroids_spec _ hwf1 hl1
  have hC0 := hwf1.isMat_centroids
  have hC' : IsMat s.k.toNat s.dimensions.toNat (cs'.map Centroid.coords)
      (fun i j => (((cs[i]?).getD ⟨[]⟩).coords[j]?).getD 0) := by
    refine IsMat.congr hC (fun i hi j _ => ?_)
    obtain ⟨x, hx, hxc, ⟨p, hp, hxp⟩, huniq⟩ := hone i (by omega)
    have hmem : members pts i = [x] := by
      unfold members
      exact filter_singleton _ pts _ x hx (by simpa using hxc)
        (fun r y hy hPy => huniq r y hy (by simpa using hPy))
    obtain ⟨q, hq, hcq⟩ := hcs i (by omega)
    rw [hp] at hq
    cases hq
    show (if (members pts i).length = 0 then (((cs[i]?).getD ⟨[]⟩).coords[j]?).getD 0
      else coordSum (members pts i) j / ((members pts i).length : ℚ)) = _
    rw [hmem, hcq]
    simp [coordSum, hxp]
  have hmap : cs'.map Centroid.coords = cs.map Centroid.coords := isMat_unique hC' hC0
  have hcs' : cs' = cs := List.map_injective_iff.mpr centroid_coords_injective hmap
  subst hcs'
  refine ⟨_, _, _, h1, h2, h3, ?_, rfl, ?_⟩
  · intro i hi
    obtain ⟨x, hx, hxc, _, huniq⟩ := hone i hi
    exact ⟨rand i % s.points.length, ⟨x, hx, hxc⟩, huniq⟩
  · exact hasConverged_self _ hwf1 0 (le_refl _)

/-- C11 (counterexample): with two distinct records `0` and `1`, `k = 2` and a sampling that
draws index `0` twice, both centroids start at `0`; the assignment labels both records `0`,
so cluster `1` is the label of no record, and the update moves centroid `0` to `1/2`. -/
theorem seeded_duplicate_sample :
    (pairState.points.map Point.coords).Nodup ∧ pairState.k = (pairState.points.length : Int) ∧
      initCentroids zeroRand pairState
        = Except.ok { pairState with centroids := [⟨[0]⟩, ⟨[0]⟩] } ∧
      assignClusters { pairState with centroids := [⟨[0]⟩, ⟨[0]⟩] }
        = some { pairState with points := [⟨[0], 0⟩, ⟨[1], 0⟩], centroids := [⟨[0]⟩, ⟨[0]⟩] } ∧
      members [⟨[0], 0⟩, ⟨[1], 0⟩] 1 = [] ∧
      updateCentroids
          { pairState with points := [⟨[0], 0⟩, ⟨[1], 0⟩], centroids := [⟨[0]⟩, ⟨[0]⟩] }
        = some { pairState with points := [⟨[0], 0⟩, ⟨[1], 0⟩],
                                centroids := [⟨[1 / 2]⟩, ⟨[0]⟩] } := by
  refine ⟨?_, rfl, ?_, ?_, ?_, ?_⟩
  · simp [pairState]
  · simp [initCentroids, initStep, pairState, zeroRand, toSizeT, toInt32, forLoop, resize, idx,
      setAt, List.range', List.foldlM]
  · simp [assignClusters, assignLoop, assignPoint, assignStep, distance, forLoop, pairState,
      List.range', List.foldlM]
  · simp [members]
  · simp [updateCentroids, List.replicate, accumulate, addCoord, idx, setAt, forLoop,
      List.range', List.foldlM, writeCentroid, writeCoord, pairState]

/-! ## The within-cluster sum of squares never increases -/

theorem cost_cons (d : Nat) (cs : List Centroid) (p : Point) (ps : List Point) :
    cost d cs (p :: ps) = sqDiffSum p.coords (centroidAt cs p.cluster.toNat) d + cost d cs ps := by
  simp [cost]

theorem wcss_fold (s : KMeans) (hwf : WF s) :
    ∀ (pts : List Point) (acc : ℚ), (∀ p ∈ pts, p ∈ s.points ∧ 0 ≤ p.cluster ∧ p.cluster < s.k) →
      pts.foldlM (wcssStep s) acc = some (acc + cost s.dimensions.toNat s.centroids pts) := by
  intro pts
  induction pts with
  | nil => intro acc _; simp [cost]
  | cons p ps ih =>
    intro acc h
    obtain ⟨hp, h0, h1⟩ := h p (List.mem_cons_self _ _)
    have hlen := hwf.cent_len
    obtain ⟨c, hc⟩ := getElem?_of_lt s.centroids p.cluster.toNat (by omega)
    have hidx : idx s.centroids p.cluster = some c := by
      simp only [idx, not_lt.mpr h0, if_false, hc]
    have hpl := hwf.point_dim p hp
    have hcl := hwf.cent_dim c (List.getElem?_mem hc)
    have hd : distance p c = some (sqDiffSum p.coords c.coords s.dimensions.toNat) := by
      rw [distance_eq p c (by omega)]
      have : p.coords.length = s.dimensions.toNat := by omega
      rw [this]
    have hstep : wcssStep s acc p
        = some (acc + sqDiffSum p.coords c.coords s.dimensions.toNat) := by
      simp [wcssStep, hidx, hd]
    rw [List.foldlM_cons, hstep]
    show ps.foldlM (wcssStep s) (acc + sqDiffSum p.coords c.coords s.dimensions.toNat) = _
    rw [ih _ (fun q hq => h q (List.mem_cons_of_mem _ hq)), cost_cons]
    have hca : centroidAt s.centroids p.cluster.toNat = c.coords := by
      simp [centroidAt, hc]
    rw [hca, add_assoc]

theorem wcss_eq (s : KMeans) (hwf : WF s) (hl : LabelsInRange s) :
    wcss s = some (cost s.dimensions.toNat s.centroids s.points) := by
  have := wcss_fold s hwf s.points 0 (fun p hp => ⟨hp, hl p hp⟩)
  unfold wcss
  rw [this, zero_add]

theorem cost_assign_le (d k : Nat) (cs : List Centroid) :
    ∀ (ps ps' : List Point), List.Forall₂ (Assigned cs k) ps ps' →
      (∀ p ∈ ps, p.coords.length = d ∧ 0 ≤ p.cluster ∧ p.cluster.toNat < k) →
      cost d cs ps' ≤ cost d cs ps := by
  intro ps ps' h
  induction h with
  | nil => intro _; exact le_refl _
  | @cons p p' qs qs' hxy _ ih =>
    intro hall
    obtain ⟨hd, _, hlt⟩ := hall p (List.mem_cons_self _ _)
    obtain ⟨hco, c, hc, _, hmin, _⟩ := hxy
    have h1 := ih (fun q hq => hall q (List.mem_cons_of_mem _ hq))
    have h2 := hmin p.cluster.toNat hlt
    rw [cost_cons, cost_cons, hco, hc, Int.toNat_ofNat]
    rw [hd] at h2
    exact add_le_add h2 h1

theorem sum_sq_shift (m c : ℚ) :
    ∀ xs : List ℚ, (xs.map (fun x => (x - c) ^ 2)).sum =
      (xs.map (fun x => (x - m) ^ 2)).sum + 2 * (m - c) * (xs.sum - (xs.length : ℚ) * m)
        + (xs.length : ℚ) * (m - c) ^ 2 := by
  intro xs
  induction xs with
  | nil => simp
  | cons x xs ih =>
    simp only [List.map_cons, List.sum_cons, List.length_cons, Nat.cast_add, Nat.cast_one]
    rw [ih]
    ring

/-- The mean of a non-empty list minimises the sum of squared deviations. -/
theorem mean_minimises (xs : List ℚ) (hne : 0 < xs.length) (c : ℚ) :
    (xs.map (fun x => (x - xs.sum / (xs.length : ℚ)) ^ 2)).sum ≤
      (xs.map (fun x => (x - c) ^ 2)).sum := by
  have hlen : (xs.length : ℚ) ≠ 0 := by
    have : (0 : ℚ) < (xs.length : ℚ) := by exact_mod_cast hne
    exact ne_of_gt this
  rw [sum_sq_shift (xs.sum / (xs.length : ℚ)) c xs]
  have h0 : xs.sum - (xs.length : ℚ) * (xs.sum / (xs.length : ℚ)) = 0 := by
    field_simp
  rw [h0]
  have h1 : 0 ≤ (xs.length : ℚ) * (xs.sum / (xs.length : ℚ) - c) ^ 2 := by positivity
  linarith

/-- Replacing a centroid by the coordinate-wise mean of a non-empty group of records does
not increase the group's sum of squared distances. -/
theorem group_cost_le (M : List Point) (hM : 0 < M.length) (a b : List ℚ) :
    ∀ n : Nat, (∀ j, j < n → (a[j]?).getD 0 = coordSum M j / (M.length : ℚ)) →
      (M.map (fun p => sqDiffSum p.coords a n)).sum ≤
        (M.map (fun p => sqDiffSum p.coords b n)).sum := by
  intro n
  induction n with
  | zero => intro _; simp [sqDiffSum_zero]
  | succ n ih =>
    intro h
    have h1 := ih (fun j hj => h j (by omega))
    have hsplit : ∀ v : List ℚ, (M.map (fun p => sqDiffSum p.coords v (n + 1))).sum =
        (M.map (fun p => sqDiffSum p.coords v n)).sum +
          ((M.map (fun p => (p.coords[n]?).getD 0)).map
            (fun x => (x - (v[n]?).getD 0) ^ 2)).sum := by
      intro v
      simp only [sqDiffSum_succ, List.sum_map_add, List.map_map]
      rfl
    rw [hsplit a, hsplit b, h n (by omega)]
    have h2 := mean_minimises (M.map (fun p => (p.coords[n]?).getD 0)) (by simpa using hM)
      ((b[n]?).getD 0)
    simp only [List.length_map] at h2
    have h3 : coordSum M n = (M.map (fun p => (p.coords[n]?).getD 0)).sum := rfl
    rw [h3]
    exact add_le_add h1 h2

/-- The sum over the records regroups as the sum over the clusters. -/
theorem cost_regroup (d k : Nat) (cs : List Centroid) :
    ∀ pts : List Point, (∀ p ∈ pts, 0 ≤ p.cluster ∧ p.cluster.toNat < k) →
      cost d cs pts = ∑ i in Finset.range k, clusterCost d cs pts i := by
  intro pts
  induction pts with
  | nil => intro _; simp [cost, clusterCost, members]
  | cons p ps ih =>
    intro h
    obtain ⟨h0, h1⟩ := h p (List.mem_cons_self _ _)
    rw [cost_cons, ih (fun q hq => h q (List.mem_cons_of_mem _ hq))]
    have hterm : ∀ i, clusterCost d cs (p :: ps) i =
        (if i = p.cluster.toNat then sqDiffSum p.coords (centroidAt cs i) d else 0)
          + clusterCost d cs ps i := by
      intro i
      unfold clusterCost
      rw [members_cons]
      by_cases hi : i = p.cluster.toNat
      · have hpi : p.cluster = (i : Int) := by omega
        rw [if_pos hpi, if_pos hi, List.map_cons, List.sum_cons]
      · have hpi : ¬ (p.cluster = (i : Int)) := by omega
        rw [if_neg hpi, if_neg hi, zero_add]
    simp only [hterm, Finset.sum_add_distrib]
    rw [Finset.sum_ite_eq' (Finset.range k) p.cluster.toNat
      (fun i => sqDiffSum p.coords (centroidAt cs i) d)]
    simp [Finset.mem_range, h1]

theorem cost_update_le (s : KMeans) (hl : LabelsInRange s) (cs : List Centroid)
    (hC : IsMat s.k.toNat s.dimensions.toNat (cs.map Centroid.coords)
      (fun i j => if (members s.points i).length = 0
        then (((s.centroids[i]?).getD ⟨[]⟩).coords[j]?).getD 0
        else coordSum (members s.points i) j / ((members s.points i).length : ℚ))) :
    cost s.dimensions.toNat cs s.points ≤ cost s.dimensions.toNat s.centroids s.points := by
  have hlab : ∀ p ∈ s.points, 0 ≤ p.cluster ∧ p.cluster.toNat < s.k.toNat := by
    intro p hp
    obtain ⟨h0, h1⟩ := hl p hp
    exact ⟨h0, by omega⟩
  rw [cost_regroup _ s.k.toNat cs s.points hlab,
    cost_regroup _ s.k.toNat s.centroids s.points hlab]
  apply Finset.sum_le_sum
  intro i hi
  have hik : i < s.k.toNat := Finset.mem_range.mp hi
  by_cases hz : (members s.points i).length = 0
  · have : members s.points i = [] := List.length_eq_zero.mp hz
    simp [clusterCost, this]
  · obtain ⟨row, hrow, _, hrv⟩ := hC.2 i hik
    have hlen : cs.length = s.k.toNat := by simpa using hC.1
    obtain ⟨ci, hci⟩ := getElem?_of_lt cs i (by omega)
    have hcc : ci.coords = row := by
      rw [List.getElem?_map, hci] at hrow
      simpa using hrow
    have hat : centroidAt cs i = row := by simp [centroidAt, hci, hcc]
    unfold clusterCost
    apply group_cost_le (members s.points i) (Nat.pos_of_ne_zero hz)
    intro j hj
    rw [hat, hrv j hj]
    simp [hz]

/-- C18: on a well-shaped state with `k ≥ 1` and every label in `[0, k)`, the sum `J` of
`distance(p, centroids[p.cluster])` over the records is defined, `J` after
`assignClusters` is at most `J` before it, and `J` after `updateCentroids` is at most `J`
before it. -/
theorem wcss_nonincreasing (s : KMeans) (hk : 1 ≤ s.k) (hwf : WF s) (hl : LabelsInRange s) :
    ∃ j0 : ℚ, wcss s = some j0 ∧
      (∃ (s1 : KMeans) (j1 : ℚ), assignClusters s = some s1 ∧ wcss s1 = some j1 ∧ j1 ≤ j0) ∧
      (∃ (s2 : KMeans) (j2 : ℚ), updateCentroids s = some s2 ∧ wcss s2 = some j2 ∧
        j2 ≤ j0) := by
  refine ⟨_, wcss_eq s hwf hl, ?_, ?_⟩
  · obtain ⟨pts, h1, hF, hwf1, hl1⟩ := assignClusters_wf s hk hwf
    refine ⟨_, _, h1, wcss_eq _ hwf1 hl1, ?_⟩
    apply cost_assign_le s.dimensions.toNat s.k.toNat s.centroids s.points pts hF
    intro p hp
    have h2 := hwf.point_dim p hp
    obtain ⟨h3, h4⟩ := hl p hp
    exact ⟨by omega, h3, by omega⟩
  · obtain ⟨cs, h1, hC⟩ := updateCentroids_spec s hwf hl
    obtain ⟨cs', h1', hwf2, hl2⟩ := updateCentroids_wf s hwf hl
    rw [h1] at h1'
    have hcs : cs' = cs := (congrArg KMeans.centroids (Option.some.inj h1')).symm
    subst hcs
    exact ⟨_, _, h1, wcss_eq _ hwf2 hl2, cost_update_le s hl cs' hC⟩

/-- C18 (instance): `wcss_nonincreasing` applied to `demoLabelled`. -/
theorem wcss_nonincreasing_witness :
    (1 ≤ demoLabelled.k ∧ WF demoLabelled ∧ LabelsInRange demoLabelled) ∧
    ∃ j0 : ℚ, wcss demoLabelled = some j0 ∧
      (∃ (s1 : KMeans) (j1 : ℚ), assignClusters demoLabelled = some s1 ∧
        wcss s1 = some j1 ∧ j1 ≤ j0) ∧
      (∃ (s2 : KMeans) (j2 : ℚ), updateCentroids demoLabelled = some s2 ∧
        wcss s2 = some j2 ∧ j2 ≤ j0) :=
  ⟨⟨by decide, demoLabelled_wf, demoLabelled_labels⟩,
    wcss_nonincreasing demoLabelled (by decide) demoLabelled_wf demoLabelled_labels⟩

theorem swapRand_le (i : Nat) : swapRand i ≤ RAND_MAX := by
  unfold swapRand RAND_MAX; omega

theorem swapRand_distinct : ∀ i j, i < pairState.points.length → j < pairState.points.length →
    swapRand i % pairState.points.length = swapRand j % pairState.points.length → i = j := by
  intro i j hi hj h
  simp only [pairState, List.length_cons, List.length_nil, swapRand] at hi hj h
  omega

theorem pairState_nodup : (pairState.points.map Point.coords).Nodup := by
  simp [pairState]

/-- C11 (instance): `seeded_singletons` applied to `pairState` with the sampling
`swapRand`, which draws index `1` and then index `0`. -/
theorem seeded_singletons_witness :
    ((∀ i, swapRand i ≤ RAND_MAX) ∧ 1 ≤ pairState.points.length ∧
      pairState.k = (pairState.points.length : Int) ∧ pairState.k < 2147483648 ∧
      (∀ p ∈ pairState.points, (p.coords.length : Int) = pairState.dimensions) ∧
      (pairState.points.map Point.coords).Nodup ∧
      (∀ i j, i < pairState.points.length → j < pairState.points.length →
        swapRand i % pairState.points.length = swapRand j % pairState.points.length →
          i = j)) ∧
    ∃ s0 s1 s2 : KMeans, initCentroids swapRand pairState = Except.ok s0 ∧
      assignClusters s0 = some s1 ∧ updateCentroids s1 = some s2 ∧
      (∀ i : Nat, i < pairState.points.length →
        ∃ r : Nat, (∃ p : Point, s1.points[r]? = some p ∧ p.cluster = (i : Int)) ∧
          ∀ (r' : Nat) (p' : Point), s1.points[r']? = some p' → p'.cluster = (i : Int) →
            r' = r) ∧
      s2.centroids = s1.centroids ∧ hasConverged s2 s1.centroids 0 = some true :=
  ⟨⟨swapRand_le, by decide, by decide, by decide, by decide, pairState_nodup,
      swapRand_distinct⟩,
    seeded_singletons swapRand swapRand_le pairState (by decide) (by decide) (by decide)
      (by decide) pairState_nodup swapRand_distinct⟩


end KMeansModel
